import Mathlib

set_option maxHeartbeats 1000000
set_option maxRecDepth 8000
set_option synthInstance.maxHeartbeats 1000000

/-!
Shallow embedding of the ecosystem-agent document-synchronization and
atomic-commit engine (`src/agent.ts`, `src/github.ts`, `src/index.ts`).

Strings are modelled as `List Char` (`Str`).  Every definition in the
first half of the file is translated from the TypeScript source; the
regular expressions used by the source are compiled here into explicit,
executable scanning functions with JavaScript regex semantics (leftmost
match, lazy `[\s\S]*?` = earliest qualifying anchor position, greedy
character-class runs, `g`-flag continuation after each match).
-/

abbrev Str := List Char

def lit (s : String) : Str := s.data

/-- JS `\s` whitespace (the range that occurs in the ledger documents). -/
def jsSpace (c : Char) : Bool :=
  c == ' ' || c == '\t' || c == '\n' || c == '\r' || c == Char.ofNat 11 || c == Char.ofNat 12

/-- JS `\w` word character: `[A-Za-z0-9_]`. -/
def wordChar (c : Char) : Bool :=
  ('a' ≤ c && c ≤ 'z') || ('A' ≤ c && c ≤ 'Z') || c.isDigit || c == '_'

/-- `Pre p s`: `p` is an initial segment of `s` (executable via `take`). -/
def Pre (p s : Str) : Prop := s.take p.length = p

instance (p s : Str) : Decidable (Pre p s) :=
  inferInstanceAs (Decidable (s.take p.length = p))

/-- JS `String.prototype.trim` (both ends). -/
def trimStr (s : Str) : Str :=
  ((s.dropWhile jsSpace).reverse.dropWhile jsSpace).reverse

/-- JS `split('\n')`. -/
def splitNlAux : Str → Str → List Str
  | acc, [] => [acc.reverse]
  | acc, c :: t => if c == '\n' then acc.reverse :: splitNlAux [] t else splitNlAux (c :: acc) t

def splitNl (s : Str) : List Str := splitNlAux [] s

/-- First maximal digit run in `s`: JS `s.match(/\d+/)?.[0]`. -/
def firstDigitRun : Str → Option Str
  | [] => none
  | c :: t => if c.isDigit then some (c :: t.takeWhile Char.isDigit) else firstDigitRun t

/-- One attempt of `/\[Q-\d+\]\s*/` at the current position; on success
returns the remainder after the match. -/
def matchQTag (s : Str) : Option Str :=
  if Pre (lit "[Q-") s then
    match (s.drop 3) with
    | [] => none
    | c :: t =>
      if c.isDigit then
        let r := t.dropWhile Char.isDigit
        if Pre (lit "]") r then some ((r.drop 1).dropWhile jsSpace) else none
      else none
  else none

/-- JS `titleLine.replace(/\[Q-\d+\]\s*/, '')` (first occurrence only). -/
def stripQTag : Str → Str
  | [] => []
  | c :: t =>
    match matchQTag (c :: t) with
    | some r => r
    | none => c :: stripQTag t

/-- One attempt of `/\*\*From\*\*:\s*(\w+)\s*→\s*\*\*To\*\*:\s*(\w+)/` at the
current position (the token classes are disjoint, so greedy matching is
deterministic and needs no backtracking). -/
def matchFromTo (s : Str) : Option (Str × Str) :=
  if Pre (lit "**From**:") s then
    let s2 := (s.drop 9).dropWhile jsSpace
    let w1 := s2.takeWhile wordChar
    if w1.isEmpty then none else
    let s3 := (s2.drop w1.length).dropWhile jsSpace
    if Pre (lit "→") s3 then
      let s5 := (s3.drop 1).dropWhile jsSpace
      if Pre (lit "**To**:") s5 then
        let s7 := (s5.drop 7).dropWhile jsSpace
        let w2 := s7.takeWhile wordChar
        if w2.isEmpty then none else some (w1, w2)
      else none
    else none
  else none

/-- First match of the From/To pattern anywhere in the line. -/
def findFromTo : Str → Option (Str × Str)
  | [] => none
  | c :: t =>
    match matchFromTo (c :: t) with
    | some r => some r
    | none => findFromTo t

/-- JS `line.match(/(🟡|🟢|✅|🔴)/)?.[0]`: the first status glyph occurring in
the line (note: the *glyph alone*, never the full `"🟡 Open"` text). -/
def findStatusGlyph : Str → Option Char
  | [] => none
  | c :: t =>
    if c == '🟡' || c == '🟢' || c == '✅' || c == '🔴' then some c else findStatusGlyph t

/-- Structured question record (`QAQuestion` fields populated by the parser). -/
structure QRecord where
  id : Str
  questionTitle : Str
  askedBy : Option Str
  askedTo : Option Str
  status : Option Str
  questionBody : Option Str
  answerBody : Option Str
deriving DecidableEq, Repr

/-- The per-line `if/else if` chain inside `parseQABoard`'s block loop. -/
def parseLine (q : QRecord) (line : Str) : QRecord :=
  if Pre (lit "**From**:") line then
    match findFromTo line with
    | some (w1, w2) =>
      { q with askedBy := some (w1.map Char.toLower), askedTo := some (w2.map Char.toLower) }
    | none => q
  else if Pre (lit "**Status**:") line then
    { q with status := (findStatusGlyph line).map (fun c => [c]) }
  else if Pre (lit "**Question**:") line then
    { q with questionBody := some (trimStr (line.drop 13)) }
  else if Pre (lit "**Answer**:") line then
    let answer := trimStr (line.drop 11)
    if Pre (lit "_Waiting") answer then q else { q with answerBody := some answer }
  else q

def titleLineOf (block : Str) : Str :=
  trimStr ((splitNl (trimStr block)).headD [])

/-- Parse one question block (the text between two `### [Q-\d+]` separators). -/
def parseBlockQ (block : Str) : QRecord :=
  let lines := splitNl (trimStr block)
  let titleLine := trimStr (lines.headD [])
  let init : QRecord :=
    { id := lit "Q-" ++ ((firstDigitRun titleLine).getD (lit "000"))
      questionTitle := stripQTag titleLine
      askedBy := none, askedTo := none, status := none
      questionBody := none, answerBody := none }
  lines.foldl parseLine init

/-- JS truthiness of an optional string field. -/
def truthyS : Option Str → Bool
  | none => false
  | some s => !s.isEmpty

/-- `question.id && question.askedTo && question.askedBy`. -/
def includeQ (q : QRecord) : Bool :=
  !q.id.isEmpty && truthyS q.askedTo && truthyS q.askedBy

/-- One attempt of the splitter regex `/###\s+\[Q-\d+\]/` at the current
position; on success returns the remainder after the separator. -/
def matchHeaderSep (s : Str) : Option Str :=
  if Pre (lit "###") s then
    match s.drop 3 with
    | [] => none
    | c :: t =>
      if jsSpace c then
        let s2 := t.dropWhile jsSpace
        if Pre (lit "[Q-") s2 then
          match s2.drop 3 with
          | [] => none
          | d :: u =>
            if d.isDigit then
              let s4 := u.dropWhile Char.isDigit
              if Pre (lit "]") s4 then some (s4.drop 1) else none
            else none
        else none
      else none
  else none

/-- JS `markdown.split(/###\s+\[Q-\d+\]/g)` (fueled scan; the separator is
removed, segments between separators are returned in order). -/
def splitQAux : Nat → Str → Str → List Str
  | _, acc, [] => [acc.reverse]
  | 0, acc, s => [acc.reverse ++ s]
  | n + 1, acc, c :: t =>
    match matchHeaderSep (c :: t) with
    | some r => acc.reverse :: splitQAux n [] r
    | none => splitQAux n (c :: acc) t

def splitQ (md : Str) : List Str := splitQAux md.length [] md

/-- `markdown.split(/###\s+\[Q-\d+\]/g).slice(1)`. -/
def questionBlocks (md : Str) : List Str := (splitQ md).drop 1

/-- `TeamAgent.parseQABoard`: build a record per block, keep it only when
`id`, `askedTo` and `askedBy` are all truthy. -/
def parseQABoard (md : Str) : List QRecord :=
  (questionBlocks md).foldl
    (fun acc block =>
      let q := parseBlockQ block
      if includeQ q then acc ++ [q] else acc)
    []

/-- A block is well formed when the record built from it passes the
`id && askedTo && askedBy` guard (the id is always truthy, so this is
exactly "yields an askedBy and an askedTo"). -/
def wellFormedBlock (b : Str) : Bool := includeQ (parseBlockQ b)

/-!
### The ledger mutator (`TeamAgent.updateQABoard`, the text transformation)

The source applies two global regex replaces to the board text:

* `(### \[${id}\][\s\S]*?\*\*Answer\*\*:)\s*_Waiting[^\n]*` replaced by
  `$1 ${answer}\n\n**Answered**: ${date} by ${team} (Autonomous Agent)`;
* `(### \[${id}\][\s\S]*?\*\*Status\*\*:)\s*🟡 Open` replaced by
  `$1 🟢 Answered`.

The lazy `[\s\S]*?` means: anchor at an occurrence of the literal header,
then find the *earliest* later position at which the rest of the pattern
matches (this can lie in a later block).  The question id is interpolated
verbatim into the pattern; ids produced by the parser (`Q-` + digits)
contain no regex metacharacters.  The replacement argument is a *string*,
so `String.replace` runs ECMAScript `GetSubstitution` over the whole
template — including the interpolated answer text: `$$`, `$&`, `` $` ``,
`$'` and `$1` (the patterns have exactly one capture group) are expanded,
while `$0` and `$n` with `n > 1` stay literal.
-/

/-- The literal header `### [${id}]` the two mutator patterns anchor on. -/
def headerPat (qid : Str) : Str := lit "### [" ++ qid ++ lit "]"

/-- Position qualifies for the lazy scan of the answer pattern:
`\*\*Answer\*\*:` here, followed by `\s*` and then `_Waiting`. -/
def ansAnchor (s : Str) : Bool :=
  decide (Pre (lit "**Answer**:") s) &&
    decide (Pre (lit "_Waiting") ((s.drop 11).dropWhile jsSpace))

/-- Position qualifies for the lazy scan of the status pattern:
`\*\*Status\*\*:` here, followed by `\s*` and then `🟡 Open`. -/
def statusAnchor (s : Str) : Bool :=
  decide (Pre (lit "**Status**:") s) &&
    decide (Pre (lit "🟡 Open") ((s.drop 11).dropWhile jsSpace))

/-- Index of the first suffix of `s` satisfying `p` (the lazy-quantifier
scan). -/
def findIdx2 (p : Str → Bool) : Str → Option Nat
  | [] => none
  | c :: t => if p (c :: t) then some 0 else (findIdx2 p t).map (· + 1)

/-- One attempt of the answer pattern at the start of `s`; on success
returns `(group 1, remainder after the whole match)`. -/
def tryMatchAnswer (qid : Str) (s : Str) : Option (Str × Str) :=
  if Pre (headerPat qid) s then
    match findIdx2 ansAnchor (s.drop (headerPat qid).length) with
    | none => none
    | some j =>
      some (s.take ((headerPat qid).length + j + 11),
        (((s.drop ((headerPat qid).length + j + 11)).dropWhile jsSpace).drop 8).dropWhile
          (fun c => !(c == '\n')))
  else none

/-- One attempt of the status pattern at the start of `s`. -/
def tryMatchStatus (qid : Str) (s : Str) : Option (Str × Str) :=
  if Pre (headerPat qid) s then
    match findIdx2 statusAnchor (s.drop (headerPat qid).length) with
    | none => none
    | some j =>
      some (s.take ((headerPat qid).length + j + 11),
            ((s.drop ((headerPat qid).length + j + 11)).dropWhile jsSpace).drop 6)
  else none

/-- ECMAScript `GetSubstitution` for the mutator's patterns (one capture
group, always participating): expand `$$`, `$&`, `` $` ``, `$'` and
`$1`/`$01`; `$0` and `$n` with `n > 1` are kept literally (the two-digit
fallback of the spec emits the same text), and a `$` before any other
character is literal.  `matched` is the full matched substring, `before`
and `after` are the parts of the replace call's input around the match,
`g1` is capture 1. -/
def getSubstitutionGo (matched before after g1 : Str) : Nat → Str → Str
  | _, [] => []
  | 0, s => s
  | n + 1, c :: t =>
    if c = '$' then
      match t with
      | [] => ['$']
      | d :: t2 =>
        if d = '$' then '$' :: getSubstitutionGo matched before after g1 n t2
        else if d = '&' then matched ++ getSubstitutionGo matched before after g1 n t2
        else if d = Char.ofNat 96 then
          before ++ getSubstitutionGo matched before after g1 n t2
        else if d = '\'' then after ++ getSubstitutionGo matched before after g1 n t2
        else if d = '1' then g1 ++ getSubstitutionGo matched before after g1 n t2
        else if d = '0' then
          match t2 with
          | '1' :: t3 => g1 ++ getSubstitutionGo matched before after g1 n t3
          | _ => '$' :: d :: getSubstitutionGo matched before after g1 n t2
        else '$' :: d :: getSubstitutionGo matched before after g1 n t2
    else c :: getSubstitutionGo matched before after g1 n t

def getSubstitution (matched before after g1 t : Str) : Str :=
  getSubstitutionGo matched before after g1 t.length t

/-- JS global `String.replace` with a string replacement: leftmost match,
emit the `GetSubstitution`-expanded template, continue after the match.
`pre` is the part of the replace call's input before the current position
(the template's `$`-references need it); fuel ≥ input length suffices. -/
def gReplace (tryM : Str → Option (Str × Str)) (template : Str) :
    Nat → Str → Str → Str
  | _, _, [] => []
  | 0, _, c :: t => c :: t
  | n + 1, pre, c :: t =>
    match tryM (c :: t) with
    | some (g1, rest) =>
      getSubstitution ((c :: t).take ((c :: t).length - rest.length)) pre rest g1 template
        ++ gReplace tryM template n
            (pre ++ (c :: t).take ((c :: t).length - rest.length)) rest
    | none => c :: gReplace tryM template n (pre ++ [c]) t

def gReplaceRun (tryM : Str → Option (Str × Str)) (template pre s : Str) : Str :=
  gReplace tryM template s.length pre s

/-- The replacement template of the answer pattern:
`$1 ${answer}\n\n**Answered**: ${date} by ${team} (Autonomous Agent)`. -/
def replAnswer (answer team date : Str) : Str :=
  lit "$1 " ++ answer ++ lit "\n\n**Answered**: " ++ date ++ lit " by " ++ team
    ++ lit " (Autonomous Agent)"

/-- The replacement template of the status pattern: `$1 🟢 Answered`. -/
def replStatus : Str := lit "$1 🟢 Answered"

/-- `TeamAgent.updateQABoard`'s transformation of the board text:
answer replace, then status replace. -/
def updateQABoardText (qid answer team date content : Str) : Str :=
  let c1 := gReplaceRun (tryMatchAnswer qid) (replAnswer answer team date) [] content
  gReplaceRun (tryMatchStatus qid) replStatus [] c1

/-!
### Canonical ledger blocks and occurrence side conditions

`renderBlock` is the block shape the ledger documents use (one field per
line, as produced and consumed by the source).  The `no…` predicates are
the decidable side conditions stating that a pattern does not fire inside
a given region of the document.
-/

/-- Text of a block between the header `]` and the `**Status**:` label. -/
def preStatus (title f t : Str) : Str :=
  lit " " ++ title ++ lit "\n**From**: " ++ f ++ lit " → **To**: " ++ t ++ lit "\n"

/-- Text of a block between the status value and the `**Answer**:` label. -/
def midQuestion (q : Str) : Str := lit "\n**Question**: " ++ q ++ lit "\n"

/-- One ledger block: `### [id] title`, From/To, Status, Question, Answer
lines (no trailing newline; the separator to the next block follows it). -/
def renderBlock (qid title f t st q ans : Str) : Str :=
  headerPat qid ++ preStatus title f t ++ lit "**Status**:" ++ lit " " ++ st
    ++ midQuestion q ++ lit "**Answer**:" ++ lit " " ++ ans

/-- `pat` does not occur starting inside `a`, whatever text starting with
`pat` follows `a`. -/
def noStartIn (pat a : Str) : Prop :=
  ∀ i < a.length, ¬ Pre pat ((a ++ pat).drop i)

/-- The scan predicate `p` fires at no position inside the region `a` of
the document `a ++ b`. -/
def noSatIn (p : Str → Bool) (a b : Str) : Prop :=
  ∀ i < a.length, p ((a ++ b).drop i) = false

/-- `pat` occurs nowhere in `s`. -/
def noOcc (pat s : Str) : Prop := ∀ i < s.length, ¬ Pre pat (s.drop i)

instance (pat a : Str) : Decidable (noStartIn pat a) :=
  inferInstanceAs (Decidable (∀ i < a.length, ¬ Pre pat ((a ++ pat).drop i)))

instance (pat s : Str) : Decidable (noOcc pat s) :=
  inferInstanceAs (Decidable (∀ i < s.length, ¬ Pre pat (s.drop i)))

/-- A matcher only ever consumes a nonempty part of its input. -/
def Shrinks (tryM : Str → Option (Str × Str)) : Prop :=
  ∀ s g r, tryM s = some (g, r) → r.length < s.length

/-- The answer text written into a block when `updateQABoard` answers it. -/
def answeredText (answer team date : Str) : Str :=
  answer ++ lit "\n\n**Answered**: " ++ date ++ lit " by " ++ team
    ++ lit " (Autonomous Agent)"

/-!
### GitHub object-graph model (`GitHubClient.createCommit`)

Blobs are content-addressed (a blob id is determined by its content), so a
tree is a finite map from path to content.  Commit ids are drawn from a
freshness counter.  Every numbered REST call of `createCommit` can fail
according to an oracle (`this.fetch` throws on any non-ok response); the
state returned alongside the outcome records everything the server created
before the failing call — the branch ref is only written by the final call.
-/

/-- Association-list lookup (first match). -/
def aget {κ α : Type} [DecidableEq κ] : List (κ × α) → κ → Option α
  | [], _ => none
  | (k, v) :: rest, k2 => if k = k2 then some v else aget rest k2

/-- Association-list insert-or-overwrite (`Map.set` / tree layering). -/
def aset {κ α : Type} [DecidableEq κ] : List (κ × α) → κ → α → List (κ × α)
  | [], k, v => [(k, v)]
  | (k1, v1) :: rest, k, v =>
    if k1 = k then (k1, v) :: rest else (k1, v1) :: aset rest k v

structure GFile where
  path : Str
  content : Str
deriving DecidableEq, Repr

abbrev GTree := List (Str × Str)

structure CommitObj where
  message : Str
  tree : GTree
  parents : List Nat
deriving DecidableEq, Repr

structure GitSt where
  commits : List (Nat × CommitObj)
  refs : List (Str × Nat)
  nextSha : Nat
deriving DecidableEq, Repr

/-- Which of `createCommit`'s numbered API calls succeed. -/
structure ApiOracle where
  ok : Nat → Bool

def apiErr : Str := lit "GitHub API error"

/-- The per-file blob-creation loop (calls `2 … 2+K-1`); blob ids are the
contents themselves. -/
def createBlobs (o : ApiOracle) : Nat → List GFile → Except Str GTree
  | _, [] => .ok []
  | i, f :: fs =>
    if o.ok i then (createBlobs o (i + 1) fs).map (fun rest => (f.path, f.content) :: rest)
    else .error apiErr

/-- `GitHubClient.createCommit`: resolve branch head (call 0), read the base
commit (call 1), create one blob per file (calls 2…), create the tree (base
tree overlaid with the new entries), create the commit object, and finally
patch the branch ref. -/
def createCommit (o : ApiOracle) (branch message : Str) (files : List GFile)
    (st : GitSt) : GitSt × Except Str Nat :=
  if !o.ok 0 then (st, .error apiErr) else
  match aget st.refs branch with
  | none => (st, .error apiErr)
  | some baseSha =>
  if !o.ok 1 then (st, .error apiErr) else
  match aget st.commits baseSha with
  | none => (st, .error apiErr)
  | some baseCommit =>
  match createBlobs o 2 files with
  | .error e => (st, .error e)
  | .ok entries =>
  if !o.ok (2 + files.length) then (st, .error apiErr) else
  let newTree := entries.foldl (fun tr pc => aset tr pc.1 pc.2) baseCommit.tree
  if !o.ok (3 + files.length) then (st, .error apiErr) else
  let sha := st.nextSha
  let st1 : GitSt :=
    { st with commits := (sha, ⟨message, newTree, [baseSha]⟩) :: st.commits
              nextSha := sha + 1 }
  if !o.ok (4 + files.length) then (st1, .error apiErr) else
  ({ st1 with refs := aset st1.refs branch sha }, .ok sha)

/-- The oracle of a run in which every API call succeeds. -/
def allOk : ApiOracle := ⟨fun _ => true⟩

/-- Number of paths at which two trees disagree. -/
def treeDiffCount (t1 t2 : GTree) : Nat :=
  ((t1.map Prod.fst ++ t2.map Prod.fst).dedup).countP
    (fun p => decide (aget t1 p ≠ aget t2 p))

/-!
### Team pipeline model (`TeamAgent`)

`github.getFile` never throws — its internal `catch` turns any failure into
the empty string — so document fetches are plain strings.  `mnemo.query`
throws on a failed call, so each query site is an `Except` outcome.
-/

structure TeamCfg where
  name : Str
  displayName : Str
  repoPath : Str
  docsPath : Str
  qaAnswerMarker : Str
deriving DecidableEq, Repr

structure AgentResult where
  team : Str
  success : Bool
  questionsAnswered : Nat
  answersReviewed : Nat
  docsUpdated : List Str
  mcpUpdatesProcessed : Nat
  actionPlanUpdated : Bool
  readmeUpdated : Bool
  errors : List Str
  costEstimate : ℚ
deriving DecidableEq, Repr

/-- Collaborator call results for one team's pipeline run. -/
structure Oracle where
  qaBoard : Str
  queryAnswer : Str → Except Str Str
  queryInsights : Str → Except Str Str
  mcpResp : Except Str Str
  planResp : Except Str Str
  readmeResp : Except Str Str
  insightsExisting : Str
  mcpExisting : Str
  date : Str

structure AgentSt where
  result : AgentResult
  fileChanges : List (Str × Str)
deriving Repr

def qaPath : Str := lit "docs/CROSS-TEAM-QA-BOARD.md"
def insightsPath : Str := lit "docs/QA-INSIGHTS.md"
def mcpPath : Str := lit "docs/MCP-UPDATES.md"
def planPath : Str := lit "docs/ACTION-PLAN.md"
def readmePath : Str := lit "README.md"

def initResult (team : TeamCfg) : AgentResult :=
  { team := team.name, success := false, questionsAnswered := 0
    answersReviewed := 0, docsUpdated := [], mcpUpdatesProcessed := 0
    actionPlanUpdated := false, readmeUpdated := false, errors := []
    costEstimate := 0 }

/-- Body of the answer loop: query Mnemo, apply `updateQABoard` (which
re-reads the board and queues the mutated copy as a pending edit), bump the
counters; a failure is recorded as an item error. -/
def answerOne (o : Oracle) (team : TeamCfg) (st : AgentSt) (q : QRecord) : AgentSt :=
  match o.queryAnswer q.id with
  | .ok answer =>
    let content := updateQABoardText q.id answer team.displayName o.date o.qaBoard
    { result := { st.result with
        questionsAnswered := st.result.questionsAnswered + 1
        docsUpdated := st.result.docsUpdated ++ [qaPath]
        costEstimate := st.result.costEstimate + 2/100 }
      fileChanges := aset st.fileChanges qaPath content }
  | .error e =>
    { st with result := { st.result with
        errors := st.result.errors ++ [lit "Failed to answer " ++ q.id ++ lit ": " ++ e] } }

/-- Phase 1: answer open questions directed to this team. -/
def answerQuestions (o : Oracle) (team : TeamCfg) (st : AgentSt) : AgentSt :=
  let openQuestions := (parseQABoard o.qaBoard).filter
    (fun q => decide (q.askedTo = some team.name) && decide (q.status = some (lit "🟡 Open")))
  openQuestions.foldl (answerOne o team) st

/-- Body of the review loop: extract insights, append them to the insights
log (`applyInsightsToDocumentation`); a failure is an item error. -/
def reviewOne (o : Oracle) (st : AgentSt) (q : QRecord) : AgentSt :=
  match o.queryInsights q.id with
  | .ok insights =>
    let entry := lit "\n## [" ++ q.id ++ lit "] - " ++ o.date ++ lit "\n\n" ++ insights
      ++ lit "\n\n---\n"
    { result := { st.result with
        answersReviewed := st.result.answersReviewed + 1
        docsUpdated := st.result.docsUpdated ++ [insightsPath]
        costEstimate := st.result.costEstimate + 2/100 }
      fileChanges := aset st.fileChanges insightsPath (o.insightsExisting ++ entry) }
  | .error e =>
    { st with result := { st.result with
        errors := st.result.errors ++ [lit "Failed to process answer " ++ q.id ++ lit ": " ++ e] } }

/-- Phase 2: review answers to questions this team asked. -/
def reviewAnswers (o : Oracle) (team : TeamCfg) (st : AgentSt) : AgentSt :=
  let answeredQuestions := (parseQABoard o.qaBoard).filter
    (fun q => decide (q.askedBy = some team.name)
      && decide (q.status = some (lit "🟢 Answered")) && truthyS q.answerBody)
  answeredQuestions.foldl (reviewOne o) st

def applyMCPUpdatesToDocumentation (o : Oracle) (updates : Str) (st : AgentSt) : AgentSt :=
  let entry := lit "\n## Updates Checked: " ++ o.date ++ lit "\n\n" ++ updates ++ lit "\n\n---\n"
  { fileChanges := aset st.fileChanges mcpPath (o.mcpExisting ++ entry)
    result := { st.result with docsUpdated := st.result.docsUpdated ++ [mcpPath] } }

/-- Phase 3: check MCP developer-guide updates (single query; its own
`try/catch` turns a failure into a recorded phase error). -/
def checkMCPUpdates (o : Oracle) (st : AgentSt) : AgentSt :=
  match o.mcpResp with
  | .ok updates =>
    if !updates.isEmpty && decide (10 < updates.length) then
      let st1 := applyMCPUpdatesToDocumentation o updates st
      { st1 with result := { st1.result with
          mcpUpdatesProcessed := st1.result.mcpUpdatesProcessed + 1
          costEstimate := st1.result.costEstimate + 3/100 } }
    else st
  | .error e =>
    { st with result := { st.result with
        errors := st.result.errors ++ [lit "Failed to check MCP updates: " ++ e] } }

/-- Phase 4: generate the action plan (marks the plan updated on success;
the plan text is not queued as a file change by the source). -/
def updateActionPlan (o : Oracle) (st : AgentSt) : AgentSt :=
  match o.planResp with
  | .ok _plan =>
    { st with result := { st.result with
        actionPlanUpdated := true
        docsUpdated := st.result.docsUpdated ++ [planPath]
        costEstimate := st.result.costEstimate + 3/100 } }
  | .error e =>
    { st with result := { st.result with
        errors := st.result.errors ++ [lit "Failed to update action plan: " ++ e] } }

/-- Executable substring test (JS `includes`). -/
def containsSub (pat : Str) : Str → Bool
  | [] => decide (Pre pat [])
  | c :: t => decide (Pre pat (c :: t)) || containsSub pat t

/-- Phase 5: README audit (case-insensitive scan for "no updates needed"). -/
def updateReadme (o : Oracle) (st : AgentSt) : AgentSt :=
  match o.readmeResp with
  | .ok review =>
    let st1 :=
      if !containsSub (lit "no updates needed") (review.map Char.toLower) then
        { st with result := { st.result with
            readmeUpdated := true
            docsUpdated := st.result.docsUpdated ++ [readmePath] } }
      else st
    { st1 with result := { st1.result with costEstimate := st1.result.costEstimate + 2/100 } }
  | .error e =>
    { st with result := { st.result with
        errors := st.result.errors ++ [lit "Failed to review README: " ++ e] } }

/-- `TeamAgent.execute`: the five phases in order.  Every phase handles its
collaborator failures internally (per item, or by the phase's own
`try/catch`), so no exception ever escapes a phase, the `catch` branch of
`execute` is unreachable, and the success flag is set once the phases have
run. -/
def executeAgent (o : Oracle) (team : TeamCfg) : AgentSt :=
  let st0 : AgentSt := { result := initResult team, fileChanges := [] }
  let st5 := updateReadme o
    (updateActionPlan o
      (checkMCPUpdates o
        (reviewAnswers o team
          (answerQuestions o team st0))))
  { st5 with result := { st5.result with success := true } }

/-- `TeamAgent.getFileChanges`. -/
def getFileChanges (st : AgentSt) : List (Str × Str) := st.fileChanges

/-!
### Run coordinator model (`handleScheduled` in `src/index.ts`)

The per-team pipeline is abstracted as an `Except` outcome (the value the
`await agent.execute()` call produces, or an escaping exception).  Issue
creation (`createFailureIssue`) catches its own failures and degrades to a
fixed string; PR creation is likewise caught at the call site.
-/

def zeroResult (t : TeamCfg) (e : Str) : AgentResult :=
  { initResult t with errors := [e] }

/-- `createFailureIssue`: returns the issue url, or the fixed fallback
string when the issue API call fails. -/
def createFailureIssue (issueO : Str → Except Str Str) (t : TeamCfg) : Str :=
  match issueO t.name with
  | .ok url => url
  | .error _ => lit "Failed to create issue"

structure ExecutionSummary where
  timestamp : Str
  results : List AgentResult
  totalCost : ℚ
  prUrl : Option Str
  issuesCreated : List Str
deriving DecidableEq, Repr

/-- The team loop of `handleScheduled`: a returned result is kept (and a
failed one gets an issue); an escaping exception is replaced by a
synthesized zero-count failed result — with no issue. -/
def processTeams (pipeline : TeamCfg → Except Str AgentResult)
    (issueO : Str → Except Str Str) : List TeamCfg → List AgentResult × List Str
  | [] => ([], [])
  | t :: ts =>
    let hd : List AgentResult × List Str :=
      match pipeline t with
      | .ok r =>
        ([r], if !r.success && !r.errors.isEmpty then [createFailureIssue issueO t] else [])
      | .error e => ([zeroResult t e], [])
    let rest := processTeams pipeline issueO ts
    (hd.1 ++ rest.1, hd.2 ++ rest.2)

/-- `handleScheduled`: run every configured team in order, create the PR,
sum the cost estimates and fire the alert callback when the sum strictly
exceeds 50.  Returns the summary and whether the alert was invoked. -/
def handleScheduled (pipeline : TeamCfg → Except Str AgentResult)
    (issueO : Str → Except Str Str) (prO : Except Str (Option Str))
    (teams : List TeamCfg) (ts : Str) : ExecutionSummary × Bool :=
  let pr := processTeams pipeline issueO teams
  let prUrl : Option Str := match prO with | .ok u => u | .error _ => none
  let totalCost : ℚ := pr.1.foldl (fun s r => s + r.costEstimate) 0
  ({ timestamp := ts, results := pr.1, totalCost := totalCost, prUrl := prUrl
     issuesCreated := pr.2 },
   decide (50 < totalCost))

/-!
### Concrete inputs used to settle the idempotency claim
-/

/-- A ledger holding two still-waiting blocks, `Q-001` and `Q-002`. -/
def ceBoard : Str := lit "# Board\n\n### [Q-001] TitleOne\n**From**: nexus \u2192 **To**: de\n**Status**: 🟡 Open\n**Question**: q1\n**Answer**: _Waiting for DE response_\n\n### [Q-002] TitleTwo\n**From**: mnemo \u2192 **To**: de\n**Status**: 🟡 Open\n**Question**: q2\n**Answer**: _Waiting for DE response_\n"

/-- The ledger after the first (successful) application for `Q-001`. -/
def ceOnce : Str :=
  updateQABoardText (lit "Q-001") (lit "UseD1") (lit "DE") (lit "2025-12-05") ceBoard

/-- A second application with the same id, on the mutated ledger. -/
def ceTwice : Str :=
  updateQABoardText (lit "Q-001") (lit "UseD1") (lit "DE") (lit "2025-12-05") ceOnce

/-!
### Concrete inputs used to settle the coordinator claims
-/

def ceTeamA : TeamCfg :=
  ⟨lit "nexus", lit "Nexus", lit "/home/chris/nexus", lit "/home/chris/nexus/docs",
    lit "_Waiting for Nexus response_"⟩

def ceTeamB : TeamCfg :=
  ⟨lit "de", lit "DE (Distributed Electrons)", lit "/home/chris/distributed-electrons",
    lit "/home/chris/distributed-electrons/docs", lit "_Waiting for DE response_"⟩

def ceTeamC : TeamCfg :=
  ⟨lit "mnemo", lit "Mnemo", lit "/home/chris/mnemo", lit "/home/chris/mnemo/docs",
    lit "_Waiting for Mnemo response_"⟩

/-- A pipeline in which team B (`de`) raises an escaping exception and the
other teams succeed. -/
def cePipeline : TeamCfg → Except Str AgentResult := fun t =>
  if t.name = lit "de" then Except.error (lit "boom")
  else Except.ok { initResult t with success := true }

def ceIssueO : Str → Except Str Str := fun _ =>
  Except.ok (lit "https://github.com/CyberBrown/nexus/issues/1")

/-!
## Theorems

Helper lemmas first, then one theorem per claim (each claim theorem is
used nowhere else; helpers are shared).
-/

theorem foldl_push_filter {α β : Type} (f : α → β) (p : α → Bool) :
    ∀ (l : List α) (acc : List β),
      l.foldl (fun acc b => if p b then acc ++ [f b] else acc) acc
        = acc ++ (l.filter p).map f := by
  intro l
  induction l with
  | nil => simp
  | cons x xs ih =>
    intro acc
    by_cases h : p x <;> simp [h, ih, List.append_assoc]

theorem parseQABoard_eq (md : Str) :
    parseQABoard md = ((questionBlocks md).filter wellFormedBlock).map parseBlockQ := by
  have := foldl_push_filter parseBlockQ wellFormedBlock (questionBlocks md) []
  simpa [parseQABoard, wellFormedBlock] using this

/-- C5. `parseQABoard` returns exactly the records of the well-formed blocks
(those whose record passes the `id`/`askedTo`/`askedBy` guard), in document
order; the malformed blocks are dropped silently, so with `N` well-formed
and `M` malformed blocks it returns exactly `N` records and `N + M` is the
total number of blocks. -/
theorem claim_C5 (md : Str) :
    parseQABoard md = ((questionBlocks md).filter wellFormedBlock).map parseBlockQ
    ∧ (parseQABoard md).length = ((questionBlocks md).filter wellFormedBlock).length
    ∧ (parseQABoard md).length
        + ((questionBlocks md).filter (fun b => !wellFormedBlock b)).length
      = (questionBlocks md).length := by
  refine ⟨parseQABoard_eq md, ?_, ?_⟩
  · rw [parseQABoard_eq md, List.length_map]
  · rw [parseQABoard_eq md, List.length_map,
      ← List.length_eq_length_filter_add wellFormedBlock]

theorem parseLine_id (q : QRecord) (line : Str) : (parseLine q line).id = q.id := by
  unfold parseLine
  repeat' split
  all_goals first
  | rfl
  | (dsimp only; split <;> rfl)

theorem foldl_parseLine_id (lines : List Str) :
    ∀ q : QRecord, (lines.foldl parseLine q).id = q.id := by
  induction lines with
  | nil => intro q; rfl
  | cons l ls ih => intro q; rw [List.foldl_cons, ih, parseLine_id]

theorem parseBlockQ_id (b : Str) :
    (parseBlockQ b).id = lit "Q-" ++ ((firstDigitRun (titleLineOf b)).getD (lit "000")) := by
  unfold parseBlockQ titleLineOf
  rw [foldl_parseLine_id]

theorem firstDigitRun_none (l : Str) (h : ∀ c ∈ l, c.isDigit = false) :
    firstDigitRun l = none := by
  induction l with
  | nil => rfl
  | cons c t ih =>
    rw [firstDigitRun, h c (by simp)]
    simp only [Bool.false_eq_true, if_false]
    exact ih fun d hd => h d (by simp [hd])

/-- C8. A block whose (trimmed) title line contains no digit is given the
literal placeholder id `Q-000` — never its ordinal position — and whether
its record survives into the parse output depends only on the
`askedBy`/`askedTo` guard, never on the id. -/
theorem claim_C8 (md b : Str) (hb : b ∈ questionBlocks md)
    (hnd : ∀ c ∈ titleLineOf b, c.isDigit = false) :
    (parseBlockQ b).id = lit "Q-000"
    ∧ (parseBlockQ b ∈ parseQABoard md ↔ wellFormedBlock b = true) := by
  constructor
  · rw [parseBlockQ_id, firstDigitRun_none _ hnd]
    rfl
  · constructor
    · intro hmem
      rw [parseQABoard_eq] at hmem
      obtain ⟨b2, hb2, heq⟩ := List.mem_map.mp hmem
      have hwf2 : wellFormedBlock b2 = true := (List.mem_filter.mp hb2).2
      unfold wellFormedBlock at hwf2 ⊢
      rw [heq] at hwf2
      exact hwf2
    · intro hwf
      rw [parseQABoard_eq]
      exact List.mem_map_of_mem parseBlockQ (List.mem_filter.mpr ⟨hb, hwf⟩)

/-- Witness for C8 at a concrete board whose single block has a digit-free
title. -/
theorem claim_C8_witness :
    (lit " Hello\n**From**: Nexus → **To**: DE\n"
        ∈ questionBlocks (lit "### [Q-7] Hello\n**From**: Nexus → **To**: DE\n"))
    ∧ (parseBlockQ (lit " Hello\n**From**: Nexus → **To**: DE\n")).id = lit "Q-000" := by
  have h1 : lit " Hello\n**From**: Nexus → **To**: DE\n"
      ∈ questionBlocks (lit "### [Q-7] Hello\n**From**: Nexus → **To**: DE\n") := by decide
  have h2 := claim_C8 (lit "### [Q-7] Hello\n**From**: Nexus → **To**: DE\n")
    (lit " Hello\n**From**: Nexus → **To**: DE\n") h1 (by decide)
  exact ⟨h1, h2.1⟩

/-! ### Prefix and scan lemmas -/

theorem Pre_append (p t : Str) : Pre p (p ++ t) := List.take_left p t

theorem Pre_length_le {p s : Str} (h : Pre p s) : p.length ≤ s.length := by
  have h' : s.take p.length = p := h
  have := congrArg List.length h'
  simp only [List.length_take] at this
  omega

theorem Pre_decomp {p s : Str} (h : Pre p s) : s = p ++ s.drop p.length := by
  have h' : s.take p.length = p := h
  conv_lhs => rw [← List.take_append_drop p.length s]
  rw [h']

theorem length_dropWhile_le (p : Char → Bool) (l : Str) :
    (l.dropWhile p).length ≤ l.length := by
  induction l with
  | nil => simp
  | cons c t ih =>
    rw [List.dropWhile_cons]
    split
    · exact le_trans ih (by simp)
    · simp

theorem dropWhile_append_all {p : Char → Bool} {u : Str} (v : Str)
    (h : ∀ c ∈ u, p c = true) : (u ++ v).dropWhile p = v.dropWhile p := by
  induction u with
  | nil => simp
  | cons c t ih =>
    rw [List.cons_append, List.dropWhile_cons, h c (by simp)]
    simp only [if_true]
    exact ih fun d hd => h d (by simp [hd])

theorem Pre_shift {pat u z : Str} (hz : Pre pat z) (h : Pre pat (u ++ z)) :
    Pre pat (u ++ pat) := by
  have h' : (u ++ z).take pat.length = pat := h
  rw [List.take_append_eq_append_take] at h'
  show (u ++ pat).take pat.length = pat
  rw [List.take_append_eq_append_take]
  by_cases hc : pat.length ≤ u.length
  · have h0 : pat.length - u.length = 0 := by omega
    rw [h0] at h' ⊢
    simpa using h'
  · have hu : u.take pat.length = u := List.take_of_length_le (by omega)
    rw [hu] at h' ⊢
    have hz' : z = pat ++ z.drop pat.length := Pre_decomp hz
    rw [hz', List.take_append_eq_append_take] at h'
    have h0 : pat.length - u.length - pat.length = 0 := by omega
    rw [h0] at h'
    simpa using h'

theorem noStartIn_shift {pat a z : Str} (hns : noStartIn pat a) (hz : Pre pat z) :
    ∀ i < a.length, ¬ Pre pat ((a ++ z).drop i) := by
  intro i hi hPre
  apply hns i hi
  rw [List.drop_append_eq_append_drop] at hPre ⊢
  have h0 : i - a.length = 0 := by omega
  rw [h0] at hPre ⊢
  simp only [List.drop_zero] at hPre ⊢
  exact Pre_shift hz hPre

theorem findIdx2_head {p : Str → Bool} {s : Str} (hs : s ≠ []) (hp : p s = true) :
    findIdx2 p s = some 0 := by
  cases s with
  | nil => exact absurd rfl hs
  | cons c t => rw [findIdx2, hp]; simp

theorem findIdx2_append_none (p : Str → Bool) :
    ∀ (a b : Str), (∀ i < a.length, p ((a ++ b).drop i) = false) →
      findIdx2 p (a ++ b) = (findIdx2 p b).map (· + a.length) := by
  intro a
  induction a with
  | nil =>
    intro b _
    simp only [List.nil_append, List.length_nil]
    cases findIdx2 p b <;> simp
  | cons c a2 ih =>
    intro b h
    have h0 : p (c :: (a2 ++ b)) = false := by simpa using h 0 (by simp)
    show findIdx2 p (c :: (a2 ++ b)) = _
    rw [findIdx2, h0]
    simp only [Bool.false_eq_true, if_false]
    rw [ih b (fun i hi => by
      have := h (i + 1) (by simp; omega)
      simpa using this)]
    cases findIdx2 p b <;> simp
    omega

/-! ### Generic global-replace lemmas -/

theorem gReplace_fuelEq {tryM : Str → Option (Str × Str)} (hs : Shrinks tryM)
    (template : Str) :
    ∀ n m (pre s : Str), s.length ≤ n → s.length ≤ m →
      gReplace tryM template n pre s = gReplace tryM template m pre s := by
  intro n
  induction n with
  | zero =>
    intro m pre s hn _
    have : s = [] := List.eq_nil_of_length_eq_zero (by omega)
    subst this
    cases m <;> rfl
  | succ n ih =>
    intro m pre s hn hm
    cases s with
    | nil => cases m <;> rfl
    | cons c t =>
      cases m with
      | zero => simp at hm
      | succ m2 =>
        rw [gReplace, gReplace]
        cases htm : tryM (c :: t) with
        | none =>
          simp only
          rw [ih m2 (pre ++ [c]) t (by simp at hn; omega) (by simp at hm; omega)]
        | some gr =>
          obtain ⟨g, r⟩ := gr
          simp only
          have hlt := hs _ _ _ htm
          rw [ih m2 _ r (by simp at hn hlt; omega) (by simp at hm hlt; omega)]

theorem gReplaceRun_nil (tryM : Str → Option (Str × Str)) (template pre : Str) :
    gReplaceRun tryM template pre [] = [] := rfl

theorem gReplace_skip {tryM : Str → Option (Str × Str)} (template : Str) :
    ∀ (a b pre : Str), (∀ i < a.length, tryM ((a ++ b).drop i) = none) →
      gReplaceRun tryM template pre (a ++ b)
        = a ++ gReplaceRun tryM template (pre ++ a) b := by
  intro a
  induction a with
  | nil => intro b pre _; simp
  | cons c a2 ih =>
    intro b pre h
    have h0 : tryM (c :: (a2 ++ b)) = none := by simpa using h 0 (by simp)
    have step : gReplaceRun tryM template pre (c :: (a2 ++ b))
        = c :: gReplace tryM template (a2 ++ b).length (pre ++ [c]) (a2 ++ b) := by
      show gReplace tryM template ((a2 ++ b).length + 1) pre (c :: (a2 ++ b)) = _
      rw [gReplace, h0]
    show gReplaceRun tryM template pre (c :: (a2 ++ b))
        = c :: (a2 ++ gReplaceRun tryM template (pre ++ (c :: a2)) b)
    rw [step]
    have ih' := ih b (pre ++ [c]) (fun i hi => by
      have := h (i + 1) (by simp; omega)
      simpa using this)
    rw [show gReplace tryM template (a2 ++ b).length (pre ++ [c]) (a2 ++ b)
        = gReplaceRun tryM template (pre ++ [c]) (a2 ++ b) from rfl, ih']
    rw [show ((pre ++ [c]) ++ a2 : Str) = pre ++ (c :: a2) from by
      rw [List.append_assoc]; rfl]

theorem gReplace_nomatch {tryM : Str → Option (Str × Str)} (template pre : Str)
    (s : Str) (h : ∀ i < s.length, tryM (s.drop i) = none) :
    gReplaceRun tryM template pre s = s := by
  have := gReplace_skip template s [] pre (by simpa using h)
  simpa [gReplaceRun_nil] using this

theorem gReplace_matchHead {tryM : Str → Option (Str × Str)} (hs : Shrinks tryM)
    (template : Str) {s g r : Str} (pre : Str) (hm : tryM s = some (g, r)) :
    gReplaceRun tryM template pre s
      = getSubstitution (s.take (s.length - r.length)) pre r g template
        ++ gReplaceRun tryM template (pre ++ s.take (s.length - r.length)) r := by
  cases s with
  | nil =>
    have := hs _ _ _ hm
    simp at this
  | cons c t =>
    show gReplace tryM template (t.length + 1) pre (c :: t) = _
    rw [gReplace, hm]
    show getSubstitution ((c :: t).take ((c :: t).length - r.length)) pre r g template
        ++ gReplace tryM template t.length
            (pre ++ (c :: t).take ((c :: t).length - r.length)) r = _
    have hlt := hs _ _ _ hm
    rw [gReplace_fuelEq hs template t.length r.length _ r (by simp at hlt; omega) le_rfl]
    rfl

theorem getSubstitutionGo_cons (m b a g : Str) (n : Nat) (c : Char) (t : Str)
    (hc : ¬ c = '$') :
    getSubstitutionGo m b a g (n + 1) (c :: t)
      = c :: getSubstitutionGo m b a g n t := by
  cases t with
  | nil => rw [getSubstitutionGo.eq_3, if_neg hc]
  | cons d t2 =>
    cases t2 with
    | nil =>
      rw [getSubstitutionGo.eq_5 m b a g n c d [] (by intro t3 h3; cases h3), if_neg hc]
    | cons e t3 =>
      by_cases he : e = '1'
      · subst he
        rw [getSubstitutionGo.eq_4, if_neg hc]
      · rw [getSubstitutionGo.eq_5 m b a g n c d (e :: t3)
          (by intro t4 h4; injection h4 with h5 _; exact he h5), if_neg hc]

theorem getSubstitutionGo_nodollar (m b a g : Str) :
    ∀ n t, t.length ≤ n → (∀ c ∈ t, ¬ c = '$') →
      getSubstitutionGo m b a g n t = t := by
  intro n
  induction n with
  | zero =>
    intro t hlen _
    have : t = [] := List.eq_nil_of_length_eq_zero (by omega)
    subst this
    rfl
  | succ n ih =>
    intro t hlen h
    cases t with
    | nil => rfl
    | cons c t2 =>
      rw [getSubstitutionGo_cons m b a g n c t2 (h c (by simp))]
      rw [ih t2 (by simp at hlen; omega) fun d hd => h d (by simp [hd])]

theorem getSubstitution_nodollar (m b a g t : Str) (h : ∀ c ∈ t, ¬ c = '$') :
    getSubstitution m b a g t = t :=
  getSubstitutionGo_nodollar m b a g t.length t le_rfl h

theorem dollarFree_append {u v : Str} (hu : ∀ c ∈ u, ¬ c = '$')
    (hv : ∀ c ∈ v, ¬ c = '$') : ∀ c ∈ u ++ v, ¬ c = '$' := by
  intro c hc
  rcases List.mem_append.mp hc with h | h
  · exact hu c h
  · exact hv c h

/-- On a template of the form `$1 ` followed by dollar-free text, substitution
yields exactly capture 1 followed by the literal remainder. -/
theorem getSubstitution_template (m b a g t : Str) (h : ∀ c ∈ t, ¬ c = '$') :
    getSubstitution m b a g (lit "$1 " ++ t) = g ++ (lit " " ++ t) := by
  show getSubstitutionGo m b a g ('$' :: '1' :: ' ' :: t).length
    ('$' :: '1' :: ' ' :: t) = _
  show g ++ getSubstitutionGo m b a g (t.length + 2) (' ' :: t) = g ++ (lit " " ++ t)
  rw [getSubstitutionGo_nodollar m b a g (t.length + 2) (' ' :: t) (by simp)
    fun c hc => by
      rcases List.mem_cons.mp hc with h1 | h1
      · subst h1; decide
      · exact h c h1]
  rfl

theorem headerPat_length (qid : Str) : (headerPat qid).length = qid.length + 6 := by
  have h1 : (lit "### [").length = 5 := rfl
  have h2 : (lit "]").length = 1 := rfl
  simp [headerPat, h1, h2]
  omega

theorem shrinks_tryMatchAnswer (qid : Str) : Shrinks (tryMatchAnswer qid) := by
  intro s g r hm
  unfold tryMatchAnswer at hm
  split at hm
  case isTrue hp =>
    cases hj : findIdx2 ansAnchor (s.drop (headerPat qid).length) with
    | none => rw [hj] at hm; exact absurd hm (by simp)
    | some j =>
      rw [hj] at hm
      simp only [Option.some.injEq, Prod.mk.injEq] at hm
      obtain ⟨hg, hr⟩ := hm
      have hplen : 1 ≤ (headerPat qid).length := by rw [headerPat_length]; omega
      have hble : (headerPat qid).length ≤ s.length := Pre_length_le hp
      have e1 : r.length
          ≤ (((s.drop ((headerPat qid).length + j + 11)).dropWhile jsSpace).drop 8).length := by
        rw [← hr]; exact length_dropWhile_le _ _
      have e2 : (((s.drop ((headerPat qid).length + j + 11)).dropWhile jsSpace).drop 8).length
          ≤ ((s.drop ((headerPat qid).length + j + 11)).dropWhile jsSpace).length := by
        rw [List.length_drop]; omega
      have e3 : ((s.drop ((headerPat qid).length + j + 11)).dropWhile jsSpace).length
          ≤ (s.drop ((headerPat qid).length + j + 11)).length := length_dropWhile_le _ _
      have e4 : (s.drop ((headerPat qid).length + j + 11)).length
          = s.length - ((headerPat qid).length + j + 11) := List.length_drop _ _
      omega
  case isFalse => exact absurd hm (by simp)

theorem shrinks_tryMatchStatus (qid : Str) : Shrinks (tryMatchStatus qid) := by
  intro s g r hm
  unfold tryMatchStatus at hm
  split at hm
  case isTrue hp =>
    cases hj : findIdx2 statusAnchor (s.drop (headerPat qid).length) with
    | none => rw [hj] at hm; exact absurd hm (by simp)
    | some j =>
      rw [hj] at hm
      simp only [Option.some.injEq, Prod.mk.injEq] at hm
      obtain ⟨hg, hr⟩ := hm
      have hplen : 1 ≤ (headerPat qid).length := by rw [headerPat_length]; omega
      have hble : (headerPat qid).length ≤ s.length := Pre_length_le hp
      have e1 : r.length
          ≤ ((s.drop ((headerPat qid).length + j + 11)).dropWhile jsSpace).length := by
        rw [← hr, List.length_drop]; omega
      have e3 : ((s.drop ((headerPat qid).length + j + 11)).dropWhile jsSpace).length
          ≤ (s.drop ((headerPat qid).length + j + 11)).length := length_dropWhile_le _ _
      have e4 : (s.drop ((headerPat qid).length + j + 11)).length
          = s.length - ((headerPat qid).length + j + 11) := List.length_drop _ _
      omega
  case isFalse => exact absurd hm (by simp)

theorem tryMatchAnswer_none_of_notPre {qid s : Str} (h : ¬ Pre (headerPat qid) s) :
    tryMatchAnswer qid s = none := by
  unfold tryMatchAnswer
  rw [if_neg h]

theorem tryMatchStatus_none_of_notPre {qid s : Str} (h : ¬ Pre (headerPat qid) s) :
    tryMatchStatus qid s = none := by
  unfold tryMatchStatus
  rw [if_neg h]

theorem Pre_extend {p u : Str} (v : Str) (h : Pre p u) : Pre p (u ++ v) := by
  obtain ⟨u2, hu⟩ : ∃ u2, u = p ++ u2 := ⟨u.drop p.length, Pre_decomp h⟩
  subst hu
  rw [List.append_assoc]
  exact Pre_append _ _

theorem dropWhile_space_waiting {v : Str} (hv : Pre (lit "_Waiting") v) :
    (lit " " ++ v).dropWhile jsSpace = v := by
  obtain ⟨v2, hv2⟩ : ∃ v2, v = lit "_Waiting" ++ v2 := ⟨v.drop 8, Pre_decomp hv⟩
  subst hv2
  show (' ' :: '_' :: (lit "Waiting" ++ v2) : Str).dropWhile jsSpace
      = '_' :: (lit "Waiting" ++ v2)
  simp [List.dropWhile_cons, show jsSpace ' ' = true from rfl,
    show jsSpace '_' = false from rfl]

theorem dropWhile_space_glyph (z : Str) :
    (lit " " ++ (lit "🟡 Open" ++ z)).dropWhile jsSpace = lit "🟡 Open" ++ z := by
  show (' ' :: '🟡' :: (lit " Open" ++ z) : Str).dropWhile jsSpace
      = '🟡' :: (lit " Open" ++ z)
  simp [List.dropWhile_cons, show jsSpace ' ' = true from rfl,
    show jsSpace '🟡' = false from rfl]

theorem dropWhile_nonNl {w2 B : Str} (hb : B = [] ∨ ∃ B2, B = '\n' :: B2)
    (hw : ∀ c ∈ w2, ¬ c = '\n') :
    (w2 ++ B).dropWhile (fun c => !(c == '\n')) = B := by
  rw [dropWhile_append_all B (fun c hc => by
    have hcn := hw c hc
    simp [hcn])]
  rcases hb with h | ⟨B2, h⟩ <;> subst h
  · rfl
  · rw [List.dropWhile_cons]
    simp

theorem lit_answer_ne_nil : (lit "**Answer**:" : Str) ≠ [] := by decide

theorem lit_status_ne_nil : (lit "**Status**:" : Str) ≠ [] := by decide

theorem append_ne_nil_left {u : Str} (v : Str) (h : u ≠ []) : u ++ v ≠ [] := by
  simp [h]

/-- The answer pattern, attempted at the header of a canonical block whose
answer text `w` is a waiting placeholder, matches: group 1 runs up to the
`**Answer**:` label, and the match consumes through the end of the answer
line. -/
theorem tryMatchAnswer_at_block (qid x w B : Str)
    (hx : ∀ i < x.length,
      ansAnchor ((x ++ (lit "**Answer**:" ++ (lit " " ++ (w ++ B)))).drop i) = false)
    (hw : Pre (lit "_Waiting") w) (hwn : ∀ c ∈ w, ¬ c = '\n')
    (hB : B = [] ∨ ∃ B2, B = '\n' :: B2) :
    tryMatchAnswer qid (headerPat qid ++ (x ++ (lit "**Answer**:" ++ (lit " " ++ (w ++ B)))))
      = some (headerPat qid ++ (x ++ lit "**Answer**:"), B) := by
  have hww : Pre (lit "_Waiting") (w ++ B) := Pre_extend B hw
  have hyAnchor : ansAnchor (lit "**Answer**:" ++ (lit " " ++ (w ++ B))) = true := by
    unfold ansAnchor
    rw [Bool.and_eq_true, decide_eq_true_eq, decide_eq_true_eq]
    refine ⟨Pre_append _ _, ?_⟩
    rw [List.drop_left' (show (lit "**Answer**:" : Str).length = 11 from rfl)]
    rw [dropWhile_space_waiting hww]
    exact hww
  unfold tryMatchAnswer
  rw [if_pos (Pre_append _ _)]
  rw [List.drop_left]
  rw [findIdx2_append_none ansAnchor x _ hx]
  rw [findIdx2_head (append_ne_nil_left _ lit_answer_ne_nil) hyAnchor]
  simp only [Option.map_some', Nat.zero_add]
  have hgrp : (headerPat qid ++ (x ++ (lit "**Answer**:" ++ (lit " " ++ (w ++ B)))))
      = (headerPat qid ++ (x ++ lit "**Answer**:")) ++ (lit " " ++ (w ++ B)) := by
    simp [List.append_assoc]
  have hlen : (headerPat qid ++ (x ++ lit "**Answer**:")).length
      = (headerPat qid).length + x.length + 11 := by
    simp [List.length_append, show (lit "**Answer**:" : Str).length = 11 from rfl]
    omega
  rw [hgrp, List.take_left' hlen, List.drop_left' hlen]
  rw [dropWhile_space_waiting hww]
  obtain ⟨w2, hw2⟩ : ∃ w2, w = lit "_Waiting" ++ w2 := ⟨w.drop 8, Pre_decomp hw⟩
  have hdrop8 : (w ++ B).drop 8 = w2 ++ B := by
    rw [hw2, List.append_assoc]
    exact List.drop_left' rfl
  rw [hdrop8, dropWhile_nonNl hB
    (fun c hc => hwn c (by rw [hw2]; exact List.mem_append_right _ hc))]

/-- The status pattern, attempted at the header of a canonical block whose
status is `🟡 Open`, matches: group 1 runs up to the `**Status**:` label and
the match consumes through `🟡 Open`. -/
theorem tryMatchStatus_at_block (qid x2 tail2 : Str)
    (hx : ∀ i < x2.length,
      statusAnchor ((x2 ++ (lit "**Status**:" ++ (lit " " ++ (lit "🟡 Open" ++ tail2)))).drop i)
        = false) :
    tryMatchStatus qid
        (headerPat qid ++ (x2 ++ (lit "**Status**:" ++ (lit " " ++ (lit "🟡 Open" ++ tail2)))))
      = some (headerPat qid ++ (x2 ++ lit "**Status**:"), tail2) := by
  have hyAnchor :
      statusAnchor (lit "**Status**:" ++ (lit " " ++ (lit "🟡 Open" ++ tail2))) = true := by
    unfold statusAnchor
    rw [Bool.and_eq_true, decide_eq_true_eq, decide_eq_true_eq]
    refine ⟨Pre_append _ _, ?_⟩
    rw [List.drop_left' (show (lit "**Status**:" : Str).length = 11 from rfl)]
    rw [dropWhile_space_glyph]
    exact Pre_append _ _
  unfold tryMatchStatus
  rw [if_pos (Pre_append _ _)]
  rw [List.drop_left]
  rw [findIdx2_append_none statusAnchor x2 _ hx]
  rw [findIdx2_head (append_ne_nil_left _ lit_status_ne_nil) hyAnchor]
  simp only [Option.map_some', Nat.zero_add]
  have hgrp :
      (headerPat qid ++ (x2 ++ (lit "**Status**:" ++ (lit " " ++ (lit "🟡 Open" ++ tail2)))))
      = (headerPat qid ++ (x2 ++ lit "**Status**:")) ++ (lit " " ++ (lit "🟡 Open" ++ tail2)) := by
    simp [List.append_assoc]
  have hlen : (headerPat qid ++ (x2 ++ lit "**Status**:")).length
      = (headerPat qid).length + x2.length + 11 := by
    simp [List.length_append, show (lit "**Status**:" : Str).length = 11 from rfl]
    omega
  rw [hgrp, List.take_left' hlen, List.drop_left' hlen]
  rw [dropWhile_space_glyph]
  rw [List.drop_left' (show (lit "🟡 Open" : Str).length = 6 from rfl)]

/-- C1 (corrected).  Applying the mutator's text transformation to a ledger
of the form `A ++ block ++ B`, where the block carries the target id, its
status reads `🟡 Open` and its answer is a waiting placeholder, rewrites
exactly that block — status flipped to `🟢 Answered`, answer replaced by `X`
plus the `**Answered**` annotation — and leaves `A` and `B` byte-identical,
*provided* the interpolated answer, team and date texts contain no `$`.
The proviso is necessary: the replacement string is subject to ECMAScript
GetSubstitution, so a `$&`, a backtick escape, `$'`, `$1` or `$$` inside `X`
is expanded rather than written verbatim (see the counterexample).  The
remaining side conditions say the header pattern does not occur in `A`, in
`B`, or in the tail of the block, and the answer/status anchors do not fire
before their own labelled lines (all hold for any real ledger and are
decidable). -/
theorem claim_C1 (A B qid title f t q w X tm dt : Str)
    (hX : ∀ c ∈ X, ¬ c = '$')
    (htm : ∀ c ∈ tm, ¬ c = '$')
    (hdt : ∀ c ∈ dt, ¬ c = '$')
    (hA : noStartIn (headerPat qid) A)
    (hw : Pre (lit "_Waiting") w)
    (hwn : ∀ c ∈ w, ¬ c = '\n')
    (hB : B = [] ∨ ∃ B2, B = '\n' :: B2)
    (hx1 : ∀ i < (preStatus title f t
        ++ (lit "**Status**:" ++ (lit " " ++ (lit "🟡 Open" ++ midQuestion q)))).length,
      ansAnchor (((preStatus title f t
        ++ (lit "**Status**:" ++ (lit " " ++ (lit "🟡 Open" ++ midQuestion q))))
        ++ (lit "**Answer**:" ++ (lit " " ++ (w ++ B)))).drop i) = false)
    (hB1 : noOcc (headerPat qid) B)
    (hx2 : ∀ i < (preStatus title f t).length,
      statusAnchor ((preStatus title f t ++ (lit "**Status**:" ++ (lit " " ++ (lit "🟡 Open"
        ++ (midQuestion q ++ (lit "**Answer**:" ++ (lit " "
          ++ (answeredText X tm dt ++ B)))))))).drop i) = false)
    (hTail : noOcc (headerPat qid)
      (midQuestion q ++ (lit "**Answer**:" ++ (lit " " ++ (answeredText X tm dt ++ B))))) :
    updateQABoardText qid X tm dt
        (A ++ (renderBlock qid title f t (lit "🟡 Open") q w ++ B))
      = A ++ (renderBlock qid title f t (lit "🟢 Answered") q (answeredText X tm dt) ++ B) := by
  have hL1 : renderBlock qid title f t (lit "🟡 Open") q w ++ B
      = headerPat qid ++ ((preStatus title f t
          ++ (lit "**Status**:" ++ (lit " " ++ (lit "🟡 Open" ++ midQuestion q))))
          ++ (lit "**Answer**:" ++ (lit " " ++ (w ++ B)))) := by
    simp [renderBlock, List.append_assoc]
  have hmatch1 := tryMatchAnswer_at_block qid
    (preStatus title f t ++ (lit "**Status**:" ++ (lit " " ++ (lit "🟡 Open" ++ midQuestion q))))
    w B hx1 hw hwn hB
  have htempl : replAnswer X tm dt
      = lit "$1 " ++ (X ++ (lit "\n\n**Answered**: " ++ (dt ++ (lit " by "
          ++ (tm ++ lit " (Autonomous Agent)"))))) := by
    simp [replAnswer, List.append_assoc]
  have hfree : ∀ c ∈ X ++ (lit "\n\n**Answered**: " ++ (dt ++ (lit " by "
      ++ (tm ++ lit " (Autonomous Agent)")))), ¬ c = '$' :=
    dollarFree_append hX (dollarFree_append (by decide)
      (dollarFree_append hdt (dollarFree_append (by decide)
        (dollarFree_append htm (by decide)))))
  unfold updateQABoardText
  have hskip1 : gReplaceRun (tryMatchAnswer qid) (replAnswer X tm dt) []
      (A ++ (renderBlock qid title f t (lit "🟡 Open") q w ++ B))
      = A ++ gReplaceRun (tryMatchAnswer qid) (replAnswer X tm dt) A
          (renderBlock qid title f t (lit "🟡 Open") q w ++ B) := by
    have h := gReplace_skip (replAnswer X tm dt) A
      (renderBlock qid title f t (lit "🟡 Open") q w ++ B) []
      (fun i hi => by
        apply tryMatchAnswer_none_of_notPre
        refine noStartIn_shift hA ?_ i hi
        rw [hL1]
        exact Pre_append _ _)
    simpa using h
  have hpass1 : gReplaceRun (tryMatchAnswer qid) (replAnswer X tm dt) A
      (renderBlock qid title f t (lit "🟡 Open") q w ++ B)
      = renderBlock qid title f t (lit "🟡 Open") q (answeredText X tm dt) ++ B := by
    rw [hL1]
    rw [gReplace_matchHead (shrinks_tryMatchAnswer qid) _ A hmatch1]
    rw [htempl]
    rw [getSubstitution_template _ _ _ _ _ hfree]
    rw [gReplace_nomatch _ _ B (fun i hi => tryMatchAnswer_none_of_notPre (hB1 i hi))]
    simp [renderBlock, answeredText, List.append_assoc]
  rw [hskip1, hpass1]
  have hL2 : renderBlock qid title f t (lit "🟡 Open") q (answeredText X tm dt) ++ B
      = headerPat qid ++ (preStatus title f t ++ (lit "**Status**:" ++ (lit " "
          ++ (lit "🟡 Open" ++ (midQuestion q ++ (lit "**Answer**:" ++ (lit " "
            ++ (answeredText X tm dt ++ B)))))))) := by
    simp [renderBlock, List.append_assoc]
  have hmatch2 := tryMatchStatus_at_block qid (preStatus title f t)
    (midQuestion q ++ (lit "**Answer**:" ++ (lit " " ++ (answeredText X tm dt ++ B)))) hx2
  have hskip2 : gReplaceRun (tryMatchStatus qid) replStatus []
      (A ++ (renderBlock qid title f t (lit "🟡 Open") q (answeredText X tm dt) ++ B))
      = A ++ gReplaceRun (tryMatchStatus qid) replStatus A
          (renderBlock qid title f t (lit "🟡 Open") q (answeredText X tm dt) ++ B) := by
    have h := gReplace_skip replStatus A
      (renderBlock qid title f t (lit "🟡 Open") q (answeredText X tm dt) ++ B) []
      (fun i hi => by
        apply tryMatchStatus_none_of_notPre
        refine noStartIn_shift hA ?_ i hi
        rw [hL2]
        exact Pre_append _ _)
    simpa using h
  rw [hskip2]
  rw [hL2, gReplace_matchHead (shrinks_tryMatchStatus qid) _ A hmatch2]
  rw [show (replStatus : Str) = lit "$1 " ++ lit "🟢 Answered" from rfl]
  rw [getSubstitution_template _ _ _ _ _ (by decide)]
  rw [gReplace_nomatch _ _ _ (fun i hi => tryMatchStatus_none_of_notPre (hTail i hi))]
  simp [renderBlock, List.append_assoc]

/-- Witness for the corrected C1 at a concrete one-block ledger with a
dollar-free answer. -/
theorem claim_C1_witness :
    updateQABoardText (lit "Q-001") (lit "UseD1") (lit "DE") (lit "2025-12-05")
        (lit "# Board\n\n"
          ++ (renderBlock (lit "Q-001") (lit "TitleOne") (lit "nexus") (lit "de")
                (lit "🟡 Open") (lit "q1") (lit "_Waiting for DE response_") ++ lit "\n"))
      = lit "# Board\n\n"
          ++ (renderBlock (lit "Q-001") (lit "TitleOne") (lit "nexus") (lit "de")
                (lit "🟢 Answered") (lit "q1")
                (answeredText (lit "UseD1") (lit "DE") (lit "2025-12-05")) ++ lit "\n") :=
  claim_C1 _ _ _ _ _ _ _ _ _ _ _ (by decide) (by decide) (by decide)
    (by decide) (by decide) (by decide) (Or.inr ⟨[], rfl⟩) (by decide) (by decide)
    (by decide) (by decide)

/-- C1 counterexample to the unconditioned claim: an answer containing the
replacement escape `$&` is not written verbatim — ECMAScript GetSubstitution
expands it to the matched text — so the block does not end up holding the
answer `X` itself. -/
theorem claim_C1_counterexample :
    updateQABoardText (lit "Q-001") (lit "$&") (lit "DE") (lit "2025-12-05")
        (lit "# Board\n\n"
          ++ (renderBlock (lit "Q-001") (lit "TitleTwo") (lit "nexus") (lit "de")
                (lit "🟡 Open") (lit "q1") (lit "_Waiting for DE response_") ++ lit "\n"))
      ≠ lit "# Board\n\n"
          ++ (renderBlock (lit "Q-001") (lit "TitleTwo") (lit "nexus") (lit "de")
                (lit "🟢 Answered") (lit "q1")
                (answeredText (lit "$&") (lit "DE") (lit "2025-12-05")) ++ lit "\n") := by
  decide

/-- C2 counterexample.  The first application for `Q-001` succeeds (the
expected answered ledger is shown explicitly); re-applying with the same id
is *not* a no-op: the lazy `[\s\S]*?` re-anchors at the `Q-001` header and
rewrites the still-waiting `Q-002` block further down the ledger. -/
theorem claim_C2_counterexample :
    ceOnce = lit "# Board\n\n### [Q-001] TitleOne\n**From**: nexus → **To**: de\n**Status**: 🟢 Answered\n**Question**: q1\n**Answer**: UseD1\n\n**Answered**: 2025-12-05 by DE (Autonomous Agent)\n\n### [Q-002] TitleTwo\n**From**: mnemo → **To**: de\n**Status**: 🟡 Open\n**Question**: q2\n**Answer**: _Waiting for DE response_\n"
    ∧ ceTwice ≠ ceOnce := by
  constructor
  · decide
  · decide

/-- C2 amended: re-applying the mutator with the same id after a successful
first application is a no-op *provided* neither mutator pattern still
matches anywhere in the ledger — that is, no block at or after an occurrence
of the id's header still carries a waiting-placeholder answer line or an
Open status line.  (Without the proviso the claim fails; a second
application can rewrite a later still-open block.) -/
theorem claim_C2_amended (qid answer team date s : Str)
    (hA : ∀ i < s.length, tryMatchAnswer qid (s.drop i) = none)
    (hS : ∀ i < s.length, tryMatchStatus qid (s.drop i) = none) :
    updateQABoardText qid answer team date s = s := by
  unfold updateQABoardText
  rw [gReplace_nomatch _ _ s hA]
  exact gReplace_nomatch _ _ s hS

/-- Witness for the amended C2 on a fully-answered one-block ledger. -/
theorem claim_C2_witness :
    updateQABoardText (lit "Q-001") (lit "Y") (lit "DE") (lit "2025-12-06")
        (lit "### [Q-001] T\n**Status**: 🟢 Answered\n**Answer**: X\n")
      = lit "### [Q-001] T\n**Status**: 🟢 Answered\n**Answer**: X\n" :=
  claim_C2_amended _ _ _ _ _ (by decide) (by decide)

/-! ### Association-map lemmas and the commit builder -/

theorem aget_aset_self {α : Type} (m : List (Str × α)) (k : Str) (v : α) :
    aget (aset m k v) k = some v := by
  induction m with
  | nil => simp [aset, aget]
  | cons kv rest ih =>
    obtain ⟨k1, v1⟩ := kv
    by_cases h : k1 = k
    · subst h
      simp [aset, aget]
    · simp [aset, aget, h, ih]

theorem aget_aset_ne {α : Type} (m : List (Str × α)) {k k2 : Str} (v : α) (h : k ≠ k2) :
    aget (aset m k v) k2 = aget m k2 := by
  induction m with
  | nil => simp [aset, aget, h]
  | cons kv rest ih =>
    obtain ⟨k1, v1⟩ := kv
    by_cases h1 : k1 = k
    · subst h1
      simp [aset, aget, h]
    · simp [aset, aget, h1, ih]

theorem aget_some_mem {α : Type} (m : List (Str × α)) (k : Str) (v : α)
    (h : aget m k = some v) : k ∈ m.map Prod.fst := by
  induction m with
  | nil => simp [aget] at h
  | cons kv rest ih =>
    obtain ⟨k1, v1⟩ := kv
    by_cases h1 : k1 = k
    · subst h1; simp
    · rw [aget, if_neg h1] at h
      simpa using Or.inr (ih h)

theorem aget_foldl_aset_notmem {α : Type} (ps : List (Str × α)) (t : List (Str × α)) (k : Str)
    (h : k ∉ ps.map Prod.fst) :
    aget (ps.foldl (fun tr pc => aset tr pc.1 pc.2) t) k = aget t k := by
  induction ps generalizing t with
  | nil => rfl
  | cons pc rest ih =>
    obtain ⟨k1, v1⟩ := pc
    simp only [List.map_cons, List.mem_cons] at h
    push_neg at h
    rw [List.foldl_cons, ih _ h.2]
    exact aget_aset_ne t v1 (fun he => h.1 he.symm)

theorem aget_foldl_aset_mem {α : Type} (ps : List (Str × α)) (t : List (Str × α)) {k : Str}
    {v : α} (hnd : (ps.map Prod.fst).Nodup) (hmem : (k, v) ∈ ps) :
    aget (ps.foldl (fun tr pc => aset tr pc.1 pc.2) t) k = some v := by
  induction ps generalizing t with
  | nil => simp at hmem
  | cons pc rest ih =>
    obtain ⟨k1, v1⟩ := pc
    simp only [List.map_cons, List.nodup_cons] at hnd
    rcases List.mem_cons.mp hmem with he | hrest
    · cases he
      rw [List.foldl_cons, aget_foldl_aset_notmem _ _ _ hnd.1]
      exact aget_aset_self t k v
    · rw [List.foldl_cons]
      exact ih _ hnd.2 hrest

theorem createBlobs_ok_eq (o : ApiOracle) (files : List GFile) :
    ∀ (i : Nat) (entries : GTree), createBlobs o i files = Except.ok entries →
      entries = files.map (fun f => (f.path, f.content)) := by
  induction files with
  | nil =>
    intro i entries h
    simp [createBlobs] at h
    simp [h.symm]
  | cons f fs ih =>
    intro i entries h
    rw [createBlobs] at h
    split at h
    · cases hrec : createBlobs o (i + 1) fs with
      | error e => rw [hrec] at h; simp [Except.map] at h
      | ok rest =>
        rw [hrec] at h
        simp [Except.map] at h
        rw [← h, ih (i + 1) rest hrec]
        simp
    · simp at h

/-- Every run of `createCommit` either fails — leaving the branch refs
untouched — or performs the full success path. -/
theorem createCommit_cases (o : ApiOracle) (branch message : Str) (files : List GFile)
    (st : GitSt) :
    ((createCommit o branch message files st).1.refs = st.refs
      ∧ ∃ e, (createCommit o branch message files st).2 = Except.error e)
    ∨ (∃ baseSha baseCommit entries,
        aget st.refs branch = some baseSha
        ∧ aget st.commits baseSha = some baseCommit
        ∧ createBlobs o 2 files = Except.ok entries
        ∧ createCommit o branch message files st
            = ({ commits := (st.nextSha,
                  ⟨message, entries.foldl (fun tr pc => aset tr pc.1 pc.2) baseCommit.tree,
                    [baseSha]⟩) :: st.commits
                 refs := aset st.refs branch st.nextSha
                 nextSha := st.nextSha + 1 }, Except.ok st.nextSha)) := by
  unfold createCommit
  split
  · exact Or.inl ⟨rfl, _, rfl⟩
  · split
    · exact Or.inl ⟨rfl, _, rfl⟩
    · next baseSha heq1 =>
      split
      · exact Or.inl ⟨rfl, _, rfl⟩
      · split
        · exact Or.inl ⟨rfl, _, rfl⟩
        · next baseCommit heq2 =>
          split
          · exact Or.inl ⟨rfl, _, rfl⟩
          · next entries heq3 =>
            split
            · exact Or.inl ⟨rfl, _, rfl⟩
            · split
              · exact Or.inl ⟨rfl, _, rfl⟩
              · split
                · exact Or.inl ⟨rfl, _, rfl⟩
                · exact Or.inr ⟨baseSha, baseCommit, entries, heq1, heq2, heq3, rfl⟩

/-- C4. The branch ref is written only by `createCommit`'s final API call:
whenever the outcome is an error — any earlier step having failed — the refs
(in particular the branch) are exactly as before the call, and on success
the branch ref points at a commit containing every one of the K files, so no
"some files landed" state is ever observable through the branch. -/
theorem claim_C4 (o : ApiOracle) (branch message : Str) (files : List GFile) (st : GitSt) :
    (∀ e, (createCommit o branch message files st).2 = Except.error e →
      (createCommit o branch message files st).1.refs = st.refs)
    ∧ (∀ sha, (createCommit o branch message files st).2 = Except.ok sha →
        (files.map GFile.path).Nodup →
        aget (createCommit o branch message files st).1.refs branch = some sha
        ∧ ∃ cobj,
            aget (createCommit o branch message files st).1.commits sha = some cobj
            ∧ ∀ fl ∈ files, aget cobj.tree fl.path = some fl.content) := by
  rcases createCommit_cases o branch message files st with
    ⟨hrefs, e0, herr⟩ | ⟨bs, bc, entries, h1, h2, h3, heq⟩
  · constructor
    · intro e _
      exact hrefs
    · intro sha hok _
      rw [herr] at hok
      exact absurd hok (by simp)
  · constructor
    · intro e herr2
      rw [heq] at herr2
      exact absurd herr2 (by simp)
    · intro sha hok hnd
      rw [heq] at hok ⊢
      have hsha : sha = st.nextSha := by
        simpa using hok.symm
      subst hsha
      have hent : entries = files.map (fun f => (f.path, f.content)) :=
        createBlobs_ok_eq o files 2 entries h3
      refine ⟨?_, ⟨message, entries.foldl (fun tr pc => aset tr pc.1 pc.2) bc.tree, [bs]⟩,
        ?_, ?_⟩
      · exact aget_aset_self st.refs branch st.nextSha
      · simp [aget]
      · intro fl hfl
        rw [hent]
        refine aget_foldl_aset_mem _ _ ?_ ?_
        · rw [show (files.map (fun f => (f.path, f.content))).map Prod.fst
              = files.map GFile.path by simp]
          exact hnd
        · exact List.mem_map_of_mem _ hfl

/-- Witness for C4: a run whose commit-object call (call 5) fails leaves the
branch ref on the old commit; the same run with an all-success oracle
advances it to a commit holding both files. -/
theorem claim_C4_witness :
    ((createCommit ⟨fun i => !(i == 5)⟩ (lit "main") (lit "msg")
        [⟨lit "a", lit "new"⟩, ⟨lit "b", lit "bb"⟩]
        { commits := [(0, ⟨lit "init", [(lit "a", lit "old")], []⟩)]
          refs := [(lit "main", 0)], nextSha := 1 }).1.refs = [(lit "main", 0)])
    ∧ (aget (createCommit allOk (lit "main") (lit "msg")
        [⟨lit "a", lit "new"⟩, ⟨lit "b", lit "bb"⟩]
        { commits := [(0, ⟨lit "init", [(lit "a", lit "old")], []⟩)]
          refs := [(lit "main", 0)], nextSha := 1 }).1.refs (lit "main") = some 1) := by
  constructor
  · exact (claim_C4 ⟨fun i => !(i == 5)⟩ (lit "main") (lit "msg")
      [⟨lit "a", lit "new"⟩, ⟨lit "b", lit "bb"⟩]
      { commits := [(0, ⟨lit "init", [(lit "a", lit "old")], []⟩)]
        refs := [(lit "main", 0)], nextSha := 1 }).1 apiErr (by rfl)
  · exact ((claim_C4 allOk (lit "main") (lit "msg")
      [⟨lit "a", lit "new"⟩, ⟨lit "b", lit "bb"⟩]
      { commits := [(0, ⟨lit "init", [(lit "a", lit "old")], []⟩)]
        refs := [(lit "main", 0)], nextSha := 1 }).2 1 (by rfl) (by decide)).1

theorem countP_mem_eq_length {l s : List Str} (hl : l.Nodup) (hs : s.Nodup)
    (hsub : ∀ x ∈ s, x ∈ l) :
    l.countP (fun p => decide (p ∈ s)) = s.length := by
  rw [List.countP_eq_length_filter]
  have hF : (l.filter (fun p => decide (p ∈ s))).Nodup := hl.filter _
  have hmem : ∀ x, x ∈ l.filter (fun p => decide (p ∈ s)) ↔ x ∈ s := by
    intro x
    simp only [List.mem_filter, decide_eq_true_eq]
    exact ⟨fun h => h.2, fun h => ⟨hsub x h, h⟩⟩
  have hfin : (l.filter (fun p => decide (p ∈ s))).toFinset = s.toFinset := by
    ext x
    simp only [List.mem_toFinset]
    exact hmem x
  calc (l.filter (fun p => decide (p ∈ s))).length
      = (l.filter (fun p => decide (p ∈ s))).toFinset.card :=
        (List.toFinset_card_of_nodup hF).symm
    _ = s.toFinset.card := by rw [hfin]
    _ = s.length := List.toFinset_card_of_nodup hs

theorem createBlobs_allOk (files : List GFile) :
    ∀ i, createBlobs allOk i files = Except.ok (files.map (fun f => (f.path, f.content))) := by
  induction files with
  | nil => intro i; rfl
  | cons f fs ih =>
    intro i
    rw [createBlobs, if_pos (show allOk.ok i = true from rfl), ih (i + 1)]
    rfl

/-- C3.  A successful run of `createCommit` on K pending file changes
(distinct paths, each actually changing the file's content relative to the
parent tree) creates exactly one new commit; its tree differs from the
parent commit's tree in exactly K entries, and the branch ref afterwards
equals the new commit's identifier. -/
theorem claim_C3 (branch message : Str) (files : List GFile) (st : GitSt)
    (baseSha : Nat) (baseCommit : CommitObj)
    (h1 : aget st.refs branch = some baseSha)
    (h2 : aget st.commits baseSha = some baseCommit)
    (hnd : (files.map GFile.path).Nodup)
    (hchg : ∀ fl ∈ files, aget baseCommit.tree fl.path ≠ some fl.content) :
    ∃ st2 : GitSt,
      createCommit allOk branch message files st = (st2, Except.ok st.nextSha)
      ∧ st2.commits.length = st.commits.length + 1
      ∧ aget st2.refs branch = some st.nextSha
      ∧ ∃ cobj, aget st2.commits st.nextSha = some cobj
          ∧ cobj.parents = [baseSha]
          ∧ treeDiffCount cobj.tree baseCommit.tree = files.length := by
  have hblobs := createBlobs_allOk files 2
  have heval : createCommit allOk branch message files st
      = ({ commits := (st.nextSha,
            ⟨message, (files.map (fun f => (f.path, f.content))).foldl
                (fun tr pc => aset tr pc.1 pc.2) baseCommit.tree, [baseSha]⟩) :: st.commits
           refs := aset st.refs branch st.nextSha
           nextSha := st.nextSha + 1 }, Except.ok st.nextSha) := by
    have hfalse : ∀ n, (!allOk.ok n) = false := fun n => rfl
    unfold createCommit
    simp only [h1, h2, hblobs, hfalse, Bool.false_eq_true, if_false]
  refine ⟨_, heval, by simp, aget_aset_self st.refs branch st.nextSha,
    ⟨message, (files.map (fun f => (f.path, f.content))).foldl
        (fun tr pc => aset tr pc.1 pc.2) baseCommit.tree, [baseSha]⟩,
    by simp [aget], rfl, ?_⟩
  set newTree := (files.map (fun f => (f.path, f.content))).foldl
    (fun tr pc => aset tr pc.1 pc.2) baseCommit.tree with hnew
  have hkeys : (files.map (fun f => (f.path, f.content))).map Prod.fst
      = files.map GFile.path := by simp
  have hmemT : ∀ fl ∈ files, aget newTree fl.path = some fl.content := by
    intro fl hfl
    exact aget_foldl_aset_mem _ _ (by rw [hkeys]; exact hnd) (List.mem_map_of_mem _ hfl)
  have hnotT : ∀ p, p ∉ files.map GFile.path → aget newTree p = aget baseCommit.tree p := by
    intro p hp
    apply aget_foldl_aset_notmem
    rw [hkeys]
    exact hp
  unfold treeDiffCount
  rw [List.countP_congr (fun p hp => ?_)]
  case _ =>
    rw [countP_mem_eq_length (List.nodup_dedup _) hnd ?_, List.length_map]
    intro x hx
    rw [List.mem_dedup]
    obtain ⟨fl, hfl, hfx⟩ := List.mem_map.mp hx
    apply List.mem_append_left
    rw [← hfx]
    exact aget_some_mem _ _ _ (hmemT fl hfl)
  · rw [decide_eq_true_eq, decide_eq_true_eq]
    constructor
    · intro hne
      by_contra hnp
      exact hne (hnotT p hnp)
    · intro hmem
      obtain ⟨fl, hfl, hfx⟩ := List.mem_map.mp hmem
      rw [← hfx, hmemT fl hfl]
      intro hca
      exact hchg fl hfl hca.symm

/-- Witness for C3: a two-file commit on a one-commit repository. -/
theorem claim_C3_witness :
    ∃ st2 : GitSt,
      createCommit allOk (lit "main") (lit "msg")
          [⟨lit "a", lit "new"⟩, ⟨lit "b", lit "bb"⟩]
          { commits := [(0, ⟨lit "init", [(lit "a", lit "old")], []⟩)]
            refs := [(lit "main", 0)], nextSha := 1 }
        = (st2, Except.ok 1)
      ∧ st2.commits.length = 2
      ∧ aget st2.refs (lit "main") = some 1
      ∧ ∃ cobj, aget st2.commits 1 = some cobj
          ∧ cobj.parents = [0]
          ∧ treeDiffCount cobj.tree [(lit "a", lit "old")] = 2 := by
  obtain ⟨st2, he, hc, hr, cobj, hg, hp, ht⟩ := claim_C3 (lit "main") (lit "msg")
    [⟨lit "a", lit "new"⟩, ⟨lit "b", lit "bb"⟩]
    { commits := [(0, ⟨lit "init", [(lit "a", lit "old")], []⟩)]
      refs := [(lit "main", 0)], nextSha := 1 } 0 ⟨lit "init", [(lit "a", lit "old")], []⟩
    (by rfl) (by rfl) (by decide) (by decide)
  exact ⟨st2, he, hc, hr, cobj, hg, hp, ht⟩

/-! ### Coordinator lemmas -/

theorem processTeams_length (pipeline : TeamCfg → Except Str AgentResult)
    (issueO : Str → Except Str Str) :
    ∀ teams, (processTeams pipeline issueO teams).1.length = teams.length := by
  intro teams
  induction teams with
  | nil => rfl
  | cons t ts ih =>
    rw [processTeams]
    cases pipeline t <;> simp [ih]

theorem foldl_cost (l : List AgentResult) :
    ∀ a : ℚ, l.foldl (fun s r => s + r.costEstimate) a
      = a + (l.map AgentResult.costEstimate).sum := by
  induction l with
  | nil => intro a; simp
  | cons r rs ih =>
    intro a
    rw [List.foldl_cons, ih]
    simp [add_assoc]

/-- C7.  The summary's total cost is the sum of the per-team cost estimates
(including the zero cost of a synthesized failed result), the alert callback
is invoked exactly when that sum strictly exceeds 50, and exceeding the
threshold does not halt execution: the summary still carries one result per
configured team. -/
theorem claim_C7 (pipeline : TeamCfg → Except Str AgentResult)
    (issueO : Str → Except Str Str) (prO : Except Str (Option Str))
    (teams : List TeamCfg) (ts : Str) :
    (handleScheduled pipeline issueO prO teams ts).1.totalCost
        = ((handleScheduled pipeline issueO prO teams ts).1.results.map
            AgentResult.costEstimate).sum
    ∧ ((handleScheduled pipeline issueO prO teams ts).2 = true
        ↔ 50 < (handleScheduled pipeline issueO prO teams ts).1.totalCost)
    ∧ (handleScheduled pipeline issueO prO teams ts).1.results.length = teams.length := by
  refine ⟨?_, ?_, ?_⟩
  · show (processTeams pipeline issueO teams).1.foldl (fun s r => s + r.costEstimate) 0 = _
    rw [foldl_cost]
    simp only [zero_add]
    rfl
  · show decide _ = true ↔ _
    exact decide_eq_true_iff
  · exact processTeams_length pipeline issueO teams

/-- C6 (amended in its last clause).  With teams A, B, C configured in that
order and A, C succeeding: if B's pipeline *returns* a failed result (the
phase-fatal case — `success = false` with a recorded error), the summary
holds one result per team in configured order, A's and C's entries are
exactly their own pipeline outputs (so unaffected by B), and exactly one
issue — B's — is created.  If instead an exception *escapes* B's pipeline,
the coordinator synthesizes the zero-count failed result in B's slot — and
opens no issue (the catch branch creates none; the original claim's "and
opens an issue" is refuted by the counterexample). -/
theorem claim_C6 (tA tB tC : TeamCfg) (pipeline : TeamCfg → Except Str AgentResult)
    (issueO : Str → Except Str Str) (prO : Except Str (Option Str)) (ts : Str)
    (a c : AgentResult)
    (hA : pipeline tA = Except.ok a) (hC : pipeline tC = Except.ok c)
    (hAs : a.success = true) (hCs : c.success = true) :
    (∀ b, pipeline tB = Except.ok b → b.success = false → b.errors ≠ [] →
      (handleScheduled pipeline issueO prO [tA, tB, tC] ts).1.results = [a, b, c]
      ∧ (handleScheduled pipeline issueO prO [tA, tB, tC] ts).1.issuesCreated
          = [createFailureIssue issueO tB])
    ∧ (∀ e, pipeline tB = Except.error e →
      (handleScheduled pipeline issueO prO [tA, tB, tC] ts).1.results
          = [a, zeroResult tB e, c]
      ∧ (handleScheduled pipeline issueO prO [tA, tB, tC] ts).1.issuesCreated = []) := by
  constructor
  · intro b hB hbs hbe
    have hbemp : b.errors.isEmpty = false := by
      cases herr : b.errors with
      | nil => exact absurd herr hbe
      | cons x xs => rfl
    constructor
    · show (processTeams pipeline issueO [tA, tB, tC]).1 = [a, b, c]
      simp [processTeams, hA, hB, hC]
    · show (processTeams pipeline issueO [tA, tB, tC]).2 = [createFailureIssue issueO tB]
      simp [processTeams, hA, hB, hC, hAs, hCs, hbs, hbemp]
  · intro e hB
    constructor
    · show (processTeams pipeline issueO [tA, tB, tC]).1 = [a, zeroResult tB e, c]
      simp [processTeams, hA, hB, hC]
    · show (processTeams pipeline issueO [tA, tB, tC]).2 = []
      simp [processTeams, hA, hB, hC, hAs, hCs]

/-- C6 counterexample (for the claim's final clause): team B's pipeline
raises an escaping exception; the coordinator synthesizes the zero-count
failed `TeamResult` in B's slot but `issuesCreated` stays empty — no issue
is opened for B, contradicting the claim as stated. -/
theorem claim_C6_counterexample :
    cePipeline ceTeamB = Except.error (lit "boom")
    ∧ (handleScheduled cePipeline ceIssueO (Except.ok none) [ceTeamA, ceTeamB, ceTeamC]
        (lit "t")).1.results.get? 1 = some (zeroResult ceTeamB (lit "boom"))
    ∧ (handleScheduled cePipeline ceIssueO (Except.ok none) [ceTeamA, ceTeamB, ceTeamC]
        (lit "t")).1.issuesCreated = [] := by
  refine ⟨?_, ?_, ?_⟩ <;> rfl

/-- Witness for C6 at a concrete three-team run in which B returns a
phase-fatal failed result. -/
theorem claim_C6_witness :
    (handleScheduled
        (fun t => if t.name = lit "de"
          then Except.ok { initResult t with errors := [lit "fatal"] }
          else Except.ok { initResult t with success := true })
        ceIssueO (Except.ok none) [ceTeamA, ceTeamB, ceTeamC] (lit "t")).1.results
      = [{ initResult ceTeamA with success := true },
         { initResult ceTeamB with errors := [lit "fatal"] },
         { initResult ceTeamC with success := true }]
    ∧ (handleScheduled
        (fun t => if t.name = lit "de"
          then Except.ok { initResult t with errors := [lit "fatal"] }
          else Except.ok { initResult t with success := true })
        ceIssueO (Except.ok none) [ceTeamA, ceTeamB, ceTeamC] (lit "t")).1.issuesCreated
      = [createFailureIssue ceIssueO ceTeamB] :=
  (claim_C6 ceTeamA ceTeamB ceTeamC
      (fun t => if t.name = lit "de"
        then Except.ok { initResult t with errors := [lit "fatal"] }
        else Except.ok { initResult t with success := true })
      ceIssueO (Except.ok none) (lit "t")
      { initResult ceTeamA with success := true }
      { initResult ceTeamC with success := true }
      (by rfl) (by rfl) rfl rfl).1
    { initResult ceTeamB with errors := [lit "fatal"] } (by rfl) rfl (by decide)

/-! ### Team-pipeline lemmas -/

theorem parseLine_status (q : QRecord) (line : Str) :
    (parseLine q line).status = q.status ∨ (parseLine q line).status = none
      ∨ ∃ ch, (parseLine q line).status = some [ch] := by
  unfold parseLine
  repeat' split
  all_goals first
  | exact Or.inl rfl
  | (refine Or.inl ?_
     show (if Pre (lit "_Waiting") (trimStr (line.drop 11)) then q
       else { q with answerBody := some (trimStr (line.drop 11)) }).status = q.status
     split <;> rfl)
  | (cases hg : findStatusGlyph line with
     | none => exact Or.inr (Or.inl (by simp [hg]))
     | some ch => exact Or.inr (Or.inr ⟨ch, by simp [hg]⟩))

theorem foldl_parseLine_status (lines : List Str) :
    ∀ q : QRecord, (lines.foldl parseLine q).status = q.status
      ∨ (lines.foldl parseLine q).status = none
      ∨ ∃ ch, (lines.foldl parseLine q).status = some [ch] := by
  induction lines with
  | nil => intro q; exact Or.inl rfl
  | cons l ls ih =>
    intro q
    rw [List.foldl_cons]
    rcases ih (parseLine q l) with h | h | h
    · rcases parseLine_status q l with h2 | h2 | h2
      · exact Or.inl (h.trans h2)
      · exact Or.inr (Or.inl (h.trans h2))
      · obtain ⟨ch, h2⟩ := h2
        exact Or.inr (Or.inr ⟨ch, h.trans h2⟩)
    · exact Or.inr (Or.inl h)
    · exact Or.inr (Or.inr h)

theorem parseBlockQ_status (b : Str) :
    (parseBlockQ b).status = none ∨ ∃ ch, (parseBlockQ b).status = some [ch] := by
  unfold parseBlockQ
  rcases foldl_parseLine_status (splitNl (trimStr b))
    { id := lit "Q-" ++ ((firstDigitRun (trimStr ((splitNl (trimStr b)).headD []))).getD
        (lit "000"))
      questionTitle := stripQTag (trimStr ((splitNl (trimStr b)).headD []))
      askedBy := none, askedTo := none, status := none
      questionBody := none, answerBody := none } with h | h | h
  · exact Or.inl h
  · exact Or.inl h
  · exact Or.inr h

theorem parseBlockQ_status_ne (b : Str) (s : Str) (hs : s.length ≠ 1) :
    (parseBlockQ b).status ≠ some s := by
  rcases parseBlockQ_status b with h | ⟨ch, h⟩ <;> rw [h]
  · simp
  · intro hcon
    have := congrArg (fun o => (o.getD []).length) hcon
    simp at this
    exact hs this.symm

/-- `answerQuestions` is the identity: the parser stores only the status
glyph, so the `q.status === '🟡 Open'` filter never matches and the open
question list is always empty. -/
theorem answerQuestions_id (o : Oracle) (team : TeamCfg) (st : AgentSt) :
    answerQuestions o team st = st := by
  unfold answerQuestions
  have hfil : (parseQABoard o.qaBoard).filter
      (fun q => decide (q.askedTo = some team.name)
        && decide (q.status = some (lit "🟡 Open"))) = [] := by
    rw [List.filter_eq_nil_iff]
    intro q hq
    rw [parseQABoard_eq] at hq
    obtain ⟨b, _, rfl⟩ := List.mem_map.mp hq
    rw [Bool.and_eq_true, decide_eq_true_eq, decide_eq_true_eq]
    rintro ⟨_, hstat⟩
    exact parseBlockQ_status_ne b (lit "🟡 Open") (by decide) hstat
  rw [hfil]
  rfl

/-- `reviewAnswers` is the identity, for the same reason: the status is the
glyph alone, never `"🟢 Answered"`. -/
theorem reviewAnswers_id (o : Oracle) (team : TeamCfg) (st : AgentSt) :
    reviewAnswers o team st = st := by
  unfold reviewAnswers
  have hfil : (parseQABoard o.qaBoard).filter
      (fun q => decide (q.askedBy = some team.name)
        && decide (q.status = some (lit "🟢 Answered")) && truthyS q.answerBody) = [] := by
    rw [List.filter_eq_nil_iff]
    intro q hq
    rw [parseQABoard_eq] at hq
    obtain ⟨b, _, rfl⟩ := List.mem_map.mp hq
    rw [Bool.and_eq_true, Bool.and_eq_true, decide_eq_true_eq, decide_eq_true_eq]
    rintro ⟨⟨_, hstat⟩, _⟩
    exact parseBlockQ_status_ne b (lit "🟢 Answered") (by decide) hstat
  rw [hfil]
  rfl

/-- C9.  (i) No exception can escape a phase's own internal handling: every
collaborator failure is caught per item or by the phase's own `try/catch`
(and the board fetch itself degrades to the empty string), so the pipeline's
success flag is *always* true — the "success = false iff a phase-fatal
exception escaped" biconditional holds with both sides never true.
(ii) Phase-internal errors recorded in the error list never clear the flag,
and the later phases still run: with the MCP-update query failing and the
plan/readme queries succeeding, the error list is nonempty while the plan is
still marked updated and the readme audit still computes its flag. -/
theorem claim_C9 :
    (∀ (o : Oracle) (team : TeamCfg), (executeAgent o team).result.success = true)
    ∧ (∀ (o : Oracle) (team : TeamCfg) (e pl rv : Str),
        o.mcpResp = Except.error e → o.planResp = Except.ok pl →
        o.readmeResp = Except.ok rv →
        (executeAgent o team).result.errors ≠ []
        ∧ (executeAgent o team).result.actionPlanUpdated = true
        ∧ (executeAgent o team).result.readmeUpdated
            = !containsSub (lit "no updates needed") (rv.map Char.toLower)) := by
  constructor
  · intro o team
    rfl
  · intro o team e pl rv hm hp hr
    have h1 : executeAgent o team
        = { result := { (updateReadme o (updateActionPlan o (checkMCPUpdates o
              { result := initResult team, fileChanges := [] }))).result with
                success := true }
            fileChanges := (updateReadme o (updateActionPlan o (checkMCPUpdates o
              { result := initResult team, fileChanges := [] }))).fileChanges } := by
      unfold executeAgent
      simp only [answerQuestions_id, reviewAnswers_id]
    rw [h1]
    unfold checkMCPUpdates
    rw [hm]
    unfold updateActionPlan
    rw [hp]
    unfold updateReadme
    rw [hr]
    by_cases hc : containsSub (lit "no updates needed") (rv.map Char.toLower)
    · simp [hc, initResult]
    · simp [hc, initResult]

/-- Witness for C9 part (ii) at a concrete failing-MCP oracle. -/
theorem claim_C9_witness :
    (executeAgent ⟨lit "", fun _ => Except.ok (lit "A"), fun _ => Except.ok (lit "I"),
        Except.error (lit "down"), Except.ok (lit "plan"),
        Except.ok (lit "No updates needed"), lit "", lit "", lit "2025-12-05"⟩
      ceTeamA).result.errors ≠ []
    ∧ (executeAgent ⟨lit "", fun _ => Except.ok (lit "A"), fun _ => Except.ok (lit "I"),
        Except.error (lit "down"), Except.ok (lit "plan"),
        Except.ok (lit "No updates needed"), lit "", lit "", lit "2025-12-05"⟩
      ceTeamA).result.actionPlanUpdated = true
    ∧ (executeAgent ⟨lit "", fun _ => Except.ok (lit "A"), fun _ => Except.ok (lit "I"),
        Except.error (lit "down"), Except.ok (lit "plan"),
        Except.ok (lit "No updates needed"), lit "", lit "", lit "2025-12-05"⟩
      ceTeamA).result.readmeUpdated
        = !containsSub (lit "no updates needed")
            ((lit "No updates needed").map Char.toLower) :=
  claim_C9.2 ⟨lit "", fun _ => Except.ok (lit "A"), fun _ => Except.ok (lit "I"),
      Except.error (lit "down"), Except.ok (lit "plan"),
      Except.ok (lit "No updates needed"), lit "", lit "", lit "2025-12-05"⟩
    ceTeamA (lit "down") (lit "plan") (lit "No updates needed") rfl rfl rfl

theorem mem_keys_aset {α : Type} (m : List (Str × α)) (k : Str) (v : α) (x : Str)
    (h : x ∈ (aset m k v).map Prod.fst) : x ∈ m.map Prod.fst ∨ x = k := by
  induction m with
  | nil =>
    simp [aset] at h
    exact Or.inr h
  | cons kv rest ih =>
    obtain ⟨k1, v1⟩ := kv
    by_cases h1 : k1 = k
    · subst h1
      rw [aset, if_pos rfl] at h
      rw [List.map_cons] at h ⊢
      exact Or.inl h
    · rw [aset, if_neg h1] at h
      rw [List.map_cons] at h ⊢
      rcases List.mem_cons.mp h with h2 | h2
      · exact Or.inl (List.mem_cons.mpr (Or.inl h2))
      · rcases ih h2 with h3 | h3
        · exact Or.inl (List.mem_cons.mpr (Or.inr h3))
        · exact Or.inr h3

theorem nodup_aset {α : Type} (m : List (Str × α)) (k : Str) (v : α)
    (h : (m.map Prod.fst).Nodup) : ((aset m k v).map Prod.fst).Nodup := by
  induction m with
  | nil => simp [aset]
  | cons kv rest ih =>
    obtain ⟨k1, v1⟩ := kv
    rw [List.map_cons, List.nodup_cons] at h
    by_cases h1 : k1 = k
    · subst h1
      rw [aset, if_pos rfl, List.map_cons, List.nodup_cons]
      exact h
    · rw [aset, if_neg h1, List.map_cons, List.nodup_cons]
      refine ⟨?_, ih h.2⟩
      intro hmem
      rcases mem_keys_aset rest k v k1 hmem with h2 | h2
      · exact h.1 h2
      · exact h1 h2

theorem fileChanges_updateActionPlan (o : Oracle) (st : AgentSt) :
    (updateActionPlan o st).fileChanges = st.fileChanges := by
  unfold updateActionPlan
  cases o.planResp <;> rfl

theorem fileChanges_updateReadme (o : Oracle) (st : AgentSt) :
    (updateReadme o st).fileChanges = st.fileChanges := by
  unfold updateReadme
  cases o.readmeResp with
  | error e => rfl
  | ok rv =>
    dsimp only
    split <;> rfl

theorem fileChanges_checkMCPUpdates (o : Oracle) (st : AgentSt)
    (h : (st.fileChanges.map Prod.fst).Nodup) :
    ((checkMCPUpdates o st).fileChanges.map Prod.fst).Nodup := by
  unfold checkMCPUpdates applyMCPUpdatesToDocumentation
  cases o.mcpResp with
  | error e => simpa using h
  | ok u =>
    dsimp only
    split
    · exact nodup_aset _ _ _ h
    · exact h

/-- C10.  The pending-edit map built through a pipeline run holds at most one
entry per path — a later write to a path overwrites the earlier content —
while `docsUpdated` records the ledger path once per question answered, so
its length can exceed the number of pending files: answering two questions
yields two `docsUpdated` entries but a single pending ledger file. -/
theorem claim_C10 :
    (∀ (o : Oracle) (team : TeamCfg),
      ((getFileChanges (executeAgent o team)).map Prod.fst).Nodup)
    ∧ (∃ (o : Oracle) (team : TeamCfg) (q1 q2 : QRecord),
        (answerOne o team (answerOne o team
            { result := initResult team, fileChanges := [] } q1) q2).result.docsUpdated.length
          = 2
        ∧ (getFileChanges (answerOne o team (answerOne o team
            { result := initResult team, fileChanges := [] } q1) q2)).length = 1) := by
  constructor
  · intro o team
    have h1 : (executeAgent o team).fileChanges
        = (updateReadme o (updateActionPlan o (checkMCPUpdates o
            { result := initResult team, fileChanges := [] }))).fileChanges := by
      unfold executeAgent
      simp only [answerQuestions_id, reviewAnswers_id]
    rw [getFileChanges, h1, fileChanges_updateReadme, fileChanges_updateActionPlan]
    exact fileChanges_checkMCPUpdates o _ (by simp)
  · refine ⟨⟨lit "", fun _ => Except.ok (lit "A"), fun _ => Except.ok (lit "I"),
      Except.ok (lit ""), Except.ok (lit ""), Except.ok (lit ""), lit "", lit "", lit "d"⟩,
      ceTeamA, ⟨lit "Q-1", [], none, none, none, none, none⟩,
      ⟨lit "Q-2", [], none, none, none, none, none⟩, ?_, ?_⟩
    · rfl
    · rfl
